import Mathlib

/-!
# The transactional core of FOEDUS

A shallow embedding of `foedus/xct/xct_id.hpp`, of the overwrite log of
`foedus/storage/array/array_log_types.hpp` and of the task handoff of
`foedus/thread/thread_pimpl.cpp`.  The 64-bit word `data_` of an
`XctId` is a natural number; every operation that can leave the 64-bit range
reduces modulo `2^64`, and narrowing casts reduce modulo the width of their
target type.  Theorems about "every XctId" range over words below `2^64`.
Spin loops and the drain loop of the worker are functions with fuel; pointers
are optional numbers, `none` being the null pointer.
-/

namespace foedus

/-! ## Epoch (foedus/epoch.hpp) -/

/-- Modelled from the spec: the epoch class of `foedus/epoch.hpp`, which is not among the
sources.  The spec describes it as a 28-bit integer in which zero is reserved as invalid. -/
structure Epoch where
  epoch_ : Nat
deriving DecidableEq

namespace Epoch

/-- Modelled from the spec: the number of bits of an epoch ("a 28-bit integer"). -/
def kEpochBits : Nat := 28

/-- Modelled from the spec: the first integer that is not an epoch, `2^28`
(the bound of "callers must ensure `epoch < 2^28`"). -/
def kEpochIntOverflow : Nat := 2 ^ kEpochBits

/-- Modelled from the spec: half of the epoch range, `2^27`. -/
def kEpochIntHalf : Nat := 2 ^ (kEpochBits - 1)

/-- Modelled from the spec: "Zero is reserved as invalid / before everything". -/
def is_valid (self : Epoch) : Bool := self.epoch_ != 0

/-- Modelled from the spec: the signed difference `a - b` taken modulo `2^28`, that is the
representative of `a - b` in the range `[-2^27, 2^27)`. -/
def signed_difference (a b : Epoch) : Int :=
  let d : Int := ((a.epoch_ : Int) - (b.epoch_ : Int)) % (kEpochIntOverflow : Int)
  if d < (kEpochIntHalf : Int) then d else d - (kEpochIntOverflow : Int)

/-- Modelled from the spec: the epoch comparison of `foedus/epoch.hpp`.  "Comparison is
wrap-around aware: `a < b` iff the signed difference, taken modulo 2^28, is negative, with zero
special-cased", where the special case is "if `self` has invalid epoch, result is true". -/
def before (self other : Epoch) : Bool :=
  if self.is_valid then decide (signed_difference self other < 0) else true

end Epoch

namespace xct

/-! ## Constants of xct_id.hpp -/

def kMaskEpoch : Nat := 0xFFFFFFF000000000
def kMaskOrdinal : Nat := 0x0000000FFFF00000
def kMaskThreadId : Nat := 0x00000000000FFFF0
def kMaskSerializer : Nat := 0xFFFFFFFFFFFFFFF0
def kMaskInEpochOrder : Nat := 0x0000000FFFFFFFF0
def kKeylockBit : Nat := 0x0000000000000008
def kRangelockBit : Nat := 0x0000000000000004
def kDeleteBit : Nat := 0x0000000000000002
def kMovedBit : Nat := 0x0000000000000001

def kUnmaskEpoch : Nat := 0x0000000FFFFFFFFF
def kUnmaskOrdinal : Nat := 0xFFFFFFF0000FFFFF
def kUnmaskThreadId : Nat := 0xFFFFFFFFFFF0000F
def kUnmaskRangelock : Nat := 0xFFFFFFFFFFFFFFFB
def kUnmaskDelete : Nat := 0xFFFFFFFFFFFFFFFD
def kUnmaskMoved : Nat := 0xFFFFFFFFFFFFFFFE
def kUnmaskStatusBits : Nat := 0xFFFFFFFFFFFFFFF0

def kShiftEpoch : Nat := 36
def kShiftOrdinal : Nat := 20
def kShiftThreadId : Nat := 4

/-- The 64-bit complement `~x` of a `uint64_t`. -/
def not64 (x : Nat) : Nat := 2 ^ 64 - 1 - x % 2 ^ 64

/-- The in-epoch order `XctOrder` is a `uint32_t`; this is `order >> 16` narrowed to
`uint16_t`. -/
def extract_in_epoch_ordinal (order : Nat) : Nat := (order >>> 16) % 2 ^ 16

/-! ## XctId -/

/-- The transaction id: one 64-bit word. -/
structure XctId where
  data_ : Nat
deriving DecidableEq

namespace XctId

/-- The word fits the `uint64_t` field that holds it. -/
def is_word (self : XctId) : Prop := self.data_ < 2 ^ 64

instance (self : XctId) : Decidable self.is_word := by
  unfold is_word
  infer_instance

/-- `set_clean`: the arguments are a `uint32_t` epoch integer, a `uint16_t` ordinal and a
`uint16_t` thread id, each widened to 64 bits and shifted (only the epoch shift can leave the
64-bit range); the prior word is discarded. -/
def set_clean (_self : XctId) (epoch_int ordinal thread_id : Nat) : XctId :=
  ⟨((epoch_int % 2 ^ 32) <<< kShiftEpoch) % 2 ^ 64
      ||| ((ordinal % 2 ^ 16) <<< kShiftOrdinal)
      ||| ((thread_id % 2 ^ 16) <<< kShiftThreadId)⟩

def get_epoch_int (self : XctId) : Nat :=
  ((self.data_ &&& kMaskEpoch) >>> kShiftEpoch) % 2 ^ 32

def get_epoch (self : XctId) : Epoch := ⟨self.get_epoch_int⟩

def set_epoch_int (self : XctId) (epoch : Nat) : XctId :=
  ⟨(self.data_ &&& kUnmaskEpoch) ||| (((epoch % 2 ^ 32) <<< kShiftEpoch) % 2 ^ 64)⟩

def is_valid (self : XctId) : Bool := (self.data_ &&& kMaskEpoch) != 0

def get_ordinal (self : XctId) : Nat :=
  ((self.data_ &&& kMaskOrdinal) >>> kShiftOrdinal) % 2 ^ 16

def set_ordinal (self : XctId) (ordinal : Nat) : XctId :=
  ⟨(self.data_ &&& kUnmaskOrdinal) ||| ((ordinal % 2 ^ 16) <<< kShiftOrdinal)⟩

def get_thread_id (self : XctId) : Nat :=
  ((self.data_ &&& kMaskThreadId) >>> kShiftThreadId) % 2 ^ 16

def set_thread_id (self : XctId) (id : Nat) : XctId :=
  ⟨(self.data_ &&& kUnmaskThreadId) ||| ((id % 2 ^ 16) <<< kShiftThreadId)⟩

def get_in_epoch_xct_order (self : XctId) : Nat :=
  ((self.data_ &&& kMaskInEpochOrder) >>> kShiftThreadId) % 2 ^ 32

def equals_serial_order (self other : XctId) : Bool :=
  (self.data_ &&& kMaskSerializer) == (other.data_ &&& kMaskSerializer)

def equals_all (self other : XctId) : Bool := self.data_ == other.data_

/-- `before`: the epochs are compared first (wrap-around aware); when that comparison does not
say "before", the two words are compared as unsigned integers. -/
def before (self other : XctId) : Bool :=
  if self.get_epoch.before other.get_epoch then true
  else decide (self.data_ < other.data_)

/-- `store_max`: copies `other` when its epoch is valid and `self` is before it. -/
def store_max (self other : XctId) : XctId :=
  if other.get_epoch.is_valid && self.before other then ⟨other.data_⟩ else self

def is_keylocked (self : XctId) : Bool := (self.data_ &&& kKeylockBit) != 0
def is_rangelocked (self : XctId) : Bool := (self.data_ &&& kRangelockBit) != 0
def is_deleted (self : XctId) : Bool := (self.data_ &&& kDeleteBit) != 0
def is_moved (self : XctId) : Bool := (self.data_ &&& kMovedBit) != 0

def is_status_bits_off (self : XctId) : Bool :=
  !self.is_deleted && !self.is_keylocked && !self.is_moved && !self.is_rangelocked

end XctId

/-- The separation of two epoch values modulo `2^28`: the shorter way round the 28-bit circle.
It only serves to state that two epochs are "separated by less than 2^27". -/
def epoch_separation (x y : Nat) : Nat :=
  min ((x + 2 ^ 28 - y % 2 ^ 28) % 2 ^ 28) ((y + 2 ^ 28 - x % 2 ^ 28) % 2 ^ 28)

/-- Modelled from the spec: `assorted::raw_atomic_compare_exchange_weak` of
`foedus/assorted/raw_atomics.hpp`, which is not among the sources.  It is the compare-and-swap of
the spec, run while no other thread writes the word and without spurious failure: when the target
holds `expected` it is replaced by `desired`, otherwise `expected` receives the target.  The
result is the success flag, the new target and the new `expected`. -/
def raw_atomic_compare_exchange_weak (target expected desired : Nat) : Bool × Nat × Nat :=
  if target = expected then (true, desired, expected) else (false, target, target)

/-- `keylock_fail_if_moved`: the spin loop with its iterations counted by `fuel`.  An iteration
reads the word; with the moved bit on it returns false; with the key-lock bit on it goes round
again; otherwise it tries to swap in the word with the key-lock bit set and returns true when the
swap succeeds.  The result is the returned flag and the word afterwards, or `none` when the
fuel is used up while spinning. -/
def XctId.keylock_fail_if_moved : Nat → XctId → Option (Bool × XctId)
  | 0, _ => none
  | fuel + 1, self =>
    let cur := self.data_
    if (cur &&& kMovedBit) != 0 then some (false, self)
    else if (cur &&& kKeylockBit) != 0 then XctId.keylock_fail_if_moved fuel self
    else
      let desired := cur ||| kKeylockBit
      match raw_atomic_compare_exchange_weak self.data_ cur desired with
      | (true, data, _) => some (true, ⟨data⟩)
      | (false, data, _) => XctId.keylock_fail_if_moved fuel ⟨data⟩

/-- Modelled from the spec: step 5 of the commit protocol ("Derive commit TID"), whose code (the
transaction manager) is not among the sources: "Start from `(E, local_ordinal+1, thread_id, 0)`;
then for every read and every write, `store_max` against that record's owner (reads) or its
snapshot (writes)".  `observed` lists those transaction ids in the order they are visited. -/
def derive_commit_tid (E local_ordinal thread_id : Nat) (observed : List XctId) : XctId :=
  observed.foldl XctId.store_max ((XctId.mk 0).set_clean E (local_ordinal + 1) thread_id)

/-- The seven fields of the word, most significant first: their masks. -/
def field_masks : List Nat :=
  [kMaskEpoch, kMaskOrdinal, kMaskThreadId, kKeylockBit, kRangelockBit, kDeleteBit, kMovedBit]

/-! ## Locks and status bits of xct_id.hpp -/

/-- `keylock_unconditional`: the spin loop with its iterations counted by `fuel`.  An iteration
goes round again while the key-lock bit is on; otherwise it tries to swap the word without the
key-lock bit for the word with it, and leaves the loop when the swap succeeds.  The result is the
word afterwards, or `none` when the fuel is used up while spinning. -/
def XctId.keylock_unconditional : Nat → XctId → Option XctId
  | 0, _ => none
  | fuel + 1, self =>
    if (self.data_ &&& kKeylockBit) != 0 then XctId.keylock_unconditional fuel self
    else
      let expected := self.data_ &&& not64 kKeylockBit
      let desired := expected ||| kKeylockBit
      match raw_atomic_compare_exchange_weak self.data_ expected desired with
      | (true, data, _) => some ⟨data⟩
      | (false, data, _) => XctId.keylock_unconditional fuel ⟨data⟩

/-- Modelled from the spec: `assorted::raw_atomic_compare_exchange_weak_uint128` of
`foedus/assorted/raw_atomics.hpp`, which is not among the sources: "a single wide
compare-and-swap across two adjacent words", run while no other thread writes the two words and
without spurious failure.  The result is the success flag and the two words afterwards. -/
def raw_atomic_compare_exchange_weak_uint128 (target expected desired : Nat × Nat) :
    Bool × (Nat × Nat) :=
  if target = expected then (true, desired) else (false, target)

/-- The inner spin loop of the 128-bit path of `keylock_unconditional_batch` on the two adjacent
words `casted[0]`, `casted[1]`, its iterations counted by `fuel`. -/
def keylock_batch_spin : Nat → XctId → XctId → Option (XctId × XctId)
  | 0, _, _ => none
  | fuel + 1, casted0, casted1 =>
    let expected0 := casted0.data_ &&& not64 kKeylockBit
    let desired0 := expected0 ||| kKeylockBit
    let expected1 := casted1.data_ &&& not64 kKeylockBit
    let desired1 := expected1 ||| kKeylockBit
    match raw_atomic_compare_exchange_weak_uint128 (casted0.data_, casted1.data_)
        (expected0, expected1) (desired0, desired1) with
    | (true, data) => some (⟨data.1⟩, ⟨data.2⟩)
    | (false, data) => keylock_batch_spin fuel ⟨data.1⟩ ⟨data.2⟩

/-- The outer loop of the 128-bit path, `for (i = 0; i < count / 2; ++i)`, on the pair
`aligned[i * 2]`, `aligned[i * 2 + 1]`: `n` iterations remain and the next index is `i`.  A pair
outside the array has no result. -/
def keylock_batch_pairs (fuel : Nat) : Nat → Nat → List XctId → Option (List XctId)
  | 0, _, aligned => some aligned
  | n + 1, i, aligned =>
    match aligned[i * 2]?, aligned[i * 2 + 1]? with
    | some casted0, some casted1 =>
      match keylock_batch_spin fuel casted0 casted1 with
      | none => none
      | some (locked0, locked1) =>
        keylock_batch_pairs fuel n (i + 1) ((aligned.set (i * 2) locked0).set (i * 2 + 1) locked1)
    | _, _ => none

/-- The loop of the fallback path, `for (i = 0; i < count; ++i) aligned[i].keylock_unconditional()`:
`n` iterations remain and the next index is `i`.  An index outside the array has no result. -/
def keylock_batch_singles (fuel : Nat) : Nat → Nat → List XctId → Option (List XctId)
  | 0, _, aligned => some aligned
  | n + 1, i, aligned =>
    match aligned[i]? with
    | none => none
    | some word =>
      match word.keylock_unconditional fuel with
      | none => none
      | some locked => keylock_batch_singles fuel n (i + 1) (aligned.set i locked)

/-- `keylock_unconditional_batch`: `cas128` says which branch of the `#if` is compiled, the
128-bit compare-and-swap path (`true`) or the per-word fallback (`false`); `aligned` is the array
and `count` the number of words to lock, a `uint16_t`: the argument is narrowed to 16 bits on
entry (`count16`).  The loop counters stay below `count16`, so they do not wrap. -/
def XctId.keylock_unconditional_batch (cas128 : Bool) (fuel : Nat) (aligned : List XctId)
    (count : Nat) : Option (List XctId) :=
  let count16 := count % 2 ^ 16
  if cas128 then
    match keylock_batch_pairs fuel (count16 / 2) 0 aligned with
    | none => none
    | some pairs_done =>
      if count16 % 2 != 0 then
        match pairs_done[count16 - 1]? with
        | none => none
        | some word =>
          match word.keylock_unconditional fuel with
          | none => none
          | some locked => some (pairs_done.set (count16 - 1) locked)
      else some pairs_done
  else keylock_batch_singles fuel count16 0 aligned

/-- The reference for the batch primitive, in the words of the spec: "acquiring each word in
turn", that is `keylock_unconditional` on the first word, then on the second, up to `count`
words; the remaining words are not touched. -/
def keylock_each_in_turn (fuel : Nat) : List XctId → Nat → Option (List XctId)
  | words, 0 => some words
  | [], _ + 1 => none
  | word :: rest, count + 1 =>
    match word.keylock_unconditional fuel with
    | none => none
    | some locked =>
      match keylock_each_in_turn fuel rest count with
      | none => none
      | some others => some (locked :: others)

/-- The array in which exactly the words at the indexes `lo ≤ j < hi` have the key-lock bit
or-ed in. -/
def with_keylocks (words : List XctId) (lo hi : Nat) : List XctId :=
  words.mapIdx (fun j word => if lo ≤ j ∧ j < hi then ⟨word.data_ ||| kKeylockBit⟩ else word)

namespace XctId

/-- `release_keylock`: `data_ &= (~kKeylockBit)`; the caller holds the key lock. -/
def release_keylock (self : XctId) : XctId := ⟨self.data_ &&& not64 kKeylockBit⟩

/-- `rangelock_unconditional`: the spin loop with its iterations counted by `fuel`. -/
def rangelock_unconditional : Nat → XctId → Option XctId
  | 0, _ => none
  | fuel + 1, self =>
    let expected := self.data_ &&& kUnmaskRangelock
    let desired := expected ||| kRangelockBit
    match raw_atomic_compare_exchange_weak self.data_ expected desired with
    | (true, data, _) => some ⟨data⟩
    | (false, data, _) => rangelock_unconditional fuel ⟨data⟩

/-- `release_rangelock`: `data_ &= kUnmaskRangelock`; the caller holds the range lock. -/
def release_rangelock (self : XctId) : XctId := ⟨self.data_ &&& kUnmaskRangelock⟩

def set_deleted (self : XctId) : XctId := ⟨self.data_ ||| kDeleteBit⟩
def set_notdeleted (self : XctId) : XctId := ⟨self.data_ &&& not64 kDeleteBit⟩
def set_moved (self : XctId) : XctId := ⟨self.data_ ||| kMovedBit⟩
def clear_status_bits (self : XctId) : XctId := ⟨self.data_ &&& kUnmaskStatusBits⟩

/-- `initial_lock`: `data_ |= kKeylockBit`, without atomics; the word is not key-locked. -/
def initial_lock (self : XctId) : XctId := ⟨self.data_ ||| kKeylockBit⟩

/-- `initial_unlock`: `data_ &= (~kKeylockBit)`, without atomics; the word is key-locked. -/
def initial_unlock (self : XctId) : XctId := ⟨self.data_ &&& not64 kKeylockBit⟩

end XctId

/-- The four status bits. -/
def status_bits : List Nat := [kKeylockBit, kRangelockBit, kDeleteBit, kMovedBit]

end xct

/-! ## The overwrite log of array storage (foedus/storage/array/array_log_types.hpp) -/

namespace assorted

/-- Modelled from the spec: `assorted::align8` of `foedus/assorted/assorted_func.hpp`, which is
not among the sources: the value "padded" up to the next multiple of 8 ("8-byte-aligned"). -/
def align8 (value : Nat) : Nat := (value + 7) / 8 * 8

end assorted

/-- `std::memcpy(dst + dst_offset, src, n)` on byte sequences, byte by byte: the first `n` bytes
of `src` are written to `dst` from index `dst_offset` on.  Memory outside `dst` is not
represented, and a byte missing from `src` reads as 0. -/
def memcpy (dst : List Nat) (dst_offset : Nat) (src : List Nat) : Nat → List Nat
  | 0 => dst
  | n + 1 => (memcpy dst dst_offset src n).set (dst_offset + n) (src.getD n 0)

namespace storage

/-- Modelled from the spec: the record of `foedus/storage/record.hpp`, which is not among the
sources: "opaque payload bytes preceded by an embedded TID word called the owner". -/
structure Record where
  owner_id_ : xct.XctId
  payload_ : List Nat
deriving DecidableEq

namespace array

/-- Modelled from the spec: the common header of `foedus/log/common_log_types.hpp`, which is not
among the sources: "log_type_code:2, log_length:2, storage_id:4". -/
structure LogHeader where
  log_type_code_ : Nat
  log_length_ : Nat
  storage_id_ : Nat
deriving DecidableEq

/-- The overwrite log record.  `payload_` is the memory from the field `payload_` on, that is
the inline payload with whatever room the log buffer has behind the fixed 24 bytes. -/
structure OverwriteLogType where
  header_ : LogHeader
  offset_ : Nat
  xct_order_ : Nat
  payload_offset_ : Nat
  payload_count_ : Nat
  payload_ : List Nat
deriving DecidableEq

namespace OverwriteLogType

/-- `calculate_log_length`: `align8(24 + payload_count)` for a `uint16_t` argument, returned as
`uint16_t`. -/
def calculate_log_length (payload_count : Nat) : Nat :=
  assorted.align8 (24 + payload_count % 2 ^ 16) % 2 ^ 16

/-- `populate`: `log_code` is the value of `log::get_log_code<OverwriteLogType>()`, declared in
`foedus/log/log_type.hpp`, which is not among the sources.  The arguments are narrowed to the
types of the fields: `StorageId` is 32 bits, `ArrayOffset` 64 bits, the payload offset and count
16 bits.  `xct_order_` is not assigned. -/
def populate (self : OverwriteLogType) (log_code storage_id offset : Nat) (payload : List Nat)
    (payload_offset payload_count : Nat) : OverwriteLogType :=
  { header_ :=
      { log_type_code_ := log_code
        log_length_ := calculate_log_length payload_count
        storage_id_ := storage_id % 2 ^ 32 }
    offset_ := offset % 2 ^ 64
    xct_order_ := self.xct_order_
    payload_offset_ := payload_offset % 2 ^ 16
    payload_count_ := payload_count % 2 ^ 16
    payload_ := memcpy self.payload_ 0 payload (payload_count % 2 ^ 16) }

/-- `apply_record`: stamps the in-epoch order of `xct_id` on the log, copies `payload_count_`
bytes of the log payload into the record payload at `payload_offset_`, then assigns `xct_id` to
the owner word (`operator=` copies `data_`).  The result is the log and the record afterwards;
the three `ASSERT_ND` checks are debug-only and do not change the state. -/
def apply_record (self : OverwriteLogType) (xct_id : xct.XctId) (record : Record) :
    OverwriteLogType × Record :=
  ({ self with xct_order_ := xct_id.get_in_epoch_xct_order },
    { owner_id_ := ⟨xct_id.data_⟩
      payload_ := memcpy record.payload_ self.payload_offset_ self.payload_ self.payload_count_ })

/-- The object representation of a primitive value of `size` bytes, in memory order; the wire
format of the spec is little-endian. -/
def object_bytes : Nat → Nat → List Nat
  | 0, _ => []
  | size + 1, value => value % 256 :: object_bytes size (value / 256)

/-- The typed store `*reinterpret_cast<T*>(mem) = value` with `sizeof(T) = size`: the first
`size` bytes of the memory become the object representation of the value. -/
def store_primitive (mem : List Nat) (size value : Nat) : List Nat :=
  object_bytes size value ++ mem.drop size

/-- `populate_primitive<T>`: `sizeof_T` is `sizeof(T)` and `payload` the value of type `T`;
`log_code` is as in `populate`. -/
def populate_primitive (self : OverwriteLogType) (log_code storage_id offset sizeof_T payload
    payload_offset : Nat) : OverwriteLogType :=
  { header_ :=
      { log_type_code_ := log_code
        log_length_ := calculate_log_length sizeof_T
        storage_id_ := storage_id % 2 ^ 32 }
    offset_ := offset % 2 ^ 64
    xct_order_ := self.xct_order_
    payload_offset_ := payload_offset % 2 ^ 16
    payload_count_ := sizeof_T % 2 ^ 16
    payload_ := store_primitive self.payload_ sizeof_T payload }

end OverwriteLogType

end array
end storage

/-! ## The worker thread (foedus/thread/thread_pimpl.cpp) -/

namespace thread

/-- `std::atomic<T>::compare_exchange_strong(expected, desired)` as one atomic step: when the
target holds `expected` it becomes `desired`, otherwise `expected` receives the target.  The
result is the success flag, the target afterwards and `expected` afterwards. -/
def compare_exchange_strong {α : Type} [DecidableEq α] (target expected desired : α) :
    Bool × α × α :=
  if target = expected then (true, desired, expected) else (false, target, target)

/-- Modelled from the spec: the session of `foedus/thread/impersonate_session.hpp`, which is not
among the sources: "client-visible handle binding a submitted task to the worker that accepted
it".  `thread_` is the worker (`Thread*`) and `task_` the task (`ImpersonateTask*`); `none` is
the null pointer. -/
structure ImpersonateSession where
  thread_ : Option Nat
  task_ : Option Nat
deriving DecidableEq

/-- Modelled from the spec: the `raw_thread_` of `foedus/thread/stoppable_thread_impl.hpp`,
which is not among the sources: the "wait/wake primitive" with the "stop flag observed between
tasks".  `wakeups_` counts the calls of `wakeup()`. -/
structure StoppableThread where
  stop_requested_ : Bool
  wakeups_ : Nat
deriving DecidableEq

def StoppableThread.is_stop_requested (self : StoppableThread) : Bool := self.stop_requested_

def StoppableThread.wakeup (self : StoppableThread) : StoppableThread :=
  { self with wakeups_ := self.wakeups_ + 1 }

/-- The fields of `ThreadPimpl` that `try_impersonate` and `handle_tasks` use: the worker
`holder_` (`Thread*`), its id, the single-slot pending task `current_task_`
(`std::atomic<ImpersonateTask*>`, `none` is null) and `raw_thread_`. -/
structure ThreadPimpl where
  holder_ : Nat
  id_ : Nat
  current_task_ : Option Nat
  raw_thread_ : StoppableThread
deriving DecidableEq

/-- Modelled from the spec: what the tasks of `foedus/thread/impersonate_task.hpp` (not among the
sources) have seen: `runs_` lists the calls `task->run(context)` as pairs (task, context) and
`results_` the calls `task->pimpl_->set_result(result)` as pairs (task, result), both in the
order they were made. -/
structure TaskWorld where
  runs_ : List (Nat × Nat)
  results_ : List (Nat × Nat)
deriving DecidableEq

/-- How the inner loop of `handle_tasks` was left. -/
inductive DrainExit where
  | null_task
  | stop_requested
deriving DecidableEq

namespace ThreadPimpl

/-- `try_impersonate`: binds the session to the worker, then tries to swap the pending slot
from null to the task of the session; on success the worker is woken up, on failure the session
is unbound again.  The result is the returned flag, the worker and the session afterwards. -/
def try_impersonate (self : ThreadPimpl) (session : ImpersonateSession) :
    Bool × ThreadPimpl × ImpersonateSession :=
  let task : Option Nat := none
  let bound : ImpersonateSession := { session with thread_ := some self.holder_ }
  match compare_exchange_strong self.current_task_ task bound.task_ with
  | (true, slot, _) =>
    (true, { self with current_task_ := slot, raw_thread_ := self.raw_thread_.wakeup }, bound)
  | (false, slot, _) =>
    (false, { self with current_task_ := slot }, { bound with thread_ := none })

/-- The inner loop of `handle_tasks`, `while (!raw_thread_.is_stop_requested())`, which drains
the pending slot, its iterations counted by `fuel`: a task found in the slot is run with
`holder_` as context (`run task context` is the `ErrorStack` that `task->run(context)` returns),
the slot is cleared, the result is set on the task, and the loop goes round again; a null slot
leaves the loop.  The result is the way the loop was left, the worker and the task world
afterwards, or `none` when the fuel is used up. -/
def handle_tasks_drain (run : Nat → Nat → Nat) :
    Nat → ThreadPimpl → TaskWorld → Option (DrainExit × ThreadPimpl × TaskWorld)
  | 0, _, _ => none
  | fuel + 1, self, world =>
    if self.raw_thread_.is_stop_requested then some (DrainExit.stop_requested, self, world)
    else
      match self.current_task_ with
      | some task =>
        let result := run task self.holder_
        handle_tasks_drain run fuel { self with current_task_ := none }
          { runs_ := world.runs_ ++ [(task, self.holder_)]
            results_ := world.results_ ++ [(task, result)] }
      | none => some (DrainExit.null_task, self, world)

/-- Several submitters on one worker.  The only access of `try_impersonate` to shared state is its
one atomic `compare_exchange_strong` on `current_task_`, so concurrent submissions amount to the
calls made one after the other in the order in which these swaps take effect: `sessions` lists
them in that order, and the worker makes no step in between.  The result is, for each call, the
returned flag and the session afterwards, and the worker after all calls. -/
def submit_all (self : ThreadPimpl) :
    List ImpersonateSession → List (Bool × ImpersonateSession) × ThreadPimpl
  | [] => ([], self)
  | session :: rest =>
    ((((self.try_impersonate session).1, (self.try_impersonate session).2.2)
        :: (submit_all (self.try_impersonate session).2.1 rest).1),
      (submit_all (self.try_impersonate session).2.1 rest).2)

end ThreadPimpl

end thread

namespace xct

/-! ## Bit-level lemmas -/

/-- Masking with a run of `w` one-bits that starts at bit `k` selects that field. -/
theorem and_field (x k w : Nat) :
    x &&& ((2 ^ w - 1) * 2 ^ k) = x / 2 ^ k % 2 ^ w * 2 ^ k := by
  apply Nat.eq_of_testBit_eq
  intro i
  rw [Nat.testBit_and, Nat.mul_comm (2 ^ w - 1), Nat.mul_comm _ (2 ^ k), Nat.testBit_mul_pow_two,
    Nat.testBit_mul_pow_two, Nat.testBit_two_pow_sub_one, Nat.testBit_mod_two_pow,
    ← Nat.shiftRight_eq_div_pow, Nat.testBit_shiftRight]
  by_cases h : k ≤ i
  · have : k + (i - k) = i := by omega
    simp [h, this, Bool.and_comm]
  · simp [h]

/-- Or-ing a constant below `2^k` only touches the low `k` bits. -/
theorem or_low (x c k : Nat) (hc : c < 2 ^ k) :
    x ||| c = x / 2 ^ k * 2 ^ k + (x % 2 ^ k ||| c) := by
  have hx : x % 2 ^ k < 2 ^ k := Nat.mod_lt _ (Nat.two_pow_pos k)
  have h1 : x = 2 ^ k * (x / 2 ^ k) ||| x % 2 ^ k := by
    rw [← Nat.mul_add_lt_is_or hx]
    exact (Nat.div_add_mod x (2 ^ k)).symm
  have h2 : x % 2 ^ k ||| c < 2 ^ k := Nat.or_lt_two_pow hx hc
  rw [Nat.mul_comm, Nat.mul_add_lt_is_or h2, ← Nat.or_assoc, ← h1]

/-- The three shifted fields of `set_clean` do not overlap, so or-ing them adds them. -/
theorem shl_or3 (e o t : Nat) (ho : o < 2 ^ 16) (ht : t < 2 ^ 16) :
    (e <<< 36 ||| o <<< 20 ||| t <<< 4) = e * 2 ^ 36 + o * 2 ^ 20 + t * 2 ^ 4 := by
  rw [Nat.shiftLeft_eq, Nat.shiftLeft_eq, Nat.shiftLeft_eq]
  have h1 : e * 2 ^ 36 ||| o * 2 ^ 20 = 2 ^ 20 * (e * 2 ^ 16 + o) := by
    have : o * 2 ^ 20 < 2 ^ 36 := by omega
    rw [Nat.mul_comm e, ← Nat.mul_add_lt_is_or this]
    ring
  rw [h1]
  have : t * 2 ^ 4 < 2 ^ 20 := by omega
  rw [← Nat.mul_add_lt_is_or this]
  ring

theorem and_kMaskEpoch (x : Nat) : x &&& kMaskEpoch = x / 2 ^ 36 % 2 ^ 28 * 2 ^ 36 :=
  and_field x 36 28

theorem and_kMaskOrdinal (x : Nat) : x &&& kMaskOrdinal = x / 2 ^ 20 % 2 ^ 16 * 2 ^ 20 :=
  and_field x 20 16

theorem and_kMaskThreadId (x : Nat) : x &&& kMaskThreadId = x / 2 ^ 4 % 2 ^ 16 * 2 ^ 4 :=
  and_field x 4 16

theorem and_kMaskSerializer (x : Nat) : x &&& kMaskSerializer = x / 2 ^ 4 % 2 ^ 60 * 2 ^ 4 :=
  and_field x 4 60

theorem and_kMaskInEpochOrder (x : Nat) :
    x &&& kMaskInEpochOrder = x / 2 ^ 4 % 2 ^ 32 * 2 ^ 4 :=
  and_field x 4 32

theorem and_kKeylockBit (x : Nat) : x &&& kKeylockBit = x / 2 ^ 3 % 2 * 2 ^ 3 :=
  and_field x 3 1

theorem and_kRangelockBit (x : Nat) : x &&& kRangelockBit = x / 2 ^ 2 % 2 * 2 ^ 2 :=
  and_field x 2 1

theorem and_kDeleteBit (x : Nat) : x &&& kDeleteBit = x / 2 ^ 1 % 2 * 2 ^ 1 :=
  and_field x 1 1

theorem and_kMovedBit (x : Nat) : x &&& kMovedBit = x % 2 := by
  exact Nat.and_one_is_mod x

/-! ## The getters as field extraction -/

namespace XctId

theorem get_epoch_int_eq (x : XctId) : x.get_epoch_int = x.data_ / 2 ^ 36 % 2 ^ 28 := by
  unfold get_epoch_int kShiftEpoch
  rw [and_kMaskEpoch, Nat.shiftRight_eq_div_pow]
  omega

theorem get_ordinal_eq (x : XctId) : x.get_ordinal = x.data_ / 2 ^ 20 % 2 ^ 16 := by
  unfold get_ordinal kShiftOrdinal
  rw [and_kMaskOrdinal, Nat.shiftRight_eq_div_pow]
  omega

theorem get_thread_id_eq (x : XctId) : x.get_thread_id = x.data_ / 2 ^ 4 % 2 ^ 16 := by
  unfold get_thread_id kShiftThreadId
  rw [and_kMaskThreadId, Nat.shiftRight_eq_div_pow]
  omega

theorem get_in_epoch_xct_order_eq (x : XctId) :
    x.get_in_epoch_xct_order = x.data_ / 2 ^ 4 % 2 ^ 32 := by
  unfold get_in_epoch_xct_order kShiftThreadId
  rw [and_kMaskInEpochOrder, Nat.shiftRight_eq_div_pow]
  omega

theorem is_valid_iff (x : XctId) : x.is_valid = true ↔ x.data_ / 2 ^ 36 % 2 ^ 28 ≠ 0 := by
  unfold is_valid
  rw [and_kMaskEpoch]
  simp only [bne_iff_ne, ne_eq]
  omega

theorem is_valid_iff_epoch (x : XctId) : x.is_valid = true ↔ x.get_epoch_int ≠ 0 := by
  rw [is_valid_iff, get_epoch_int_eq]

theorem epoch_is_valid_iff (x : XctId) : x.get_epoch.is_valid = true ↔ x.is_valid = true := by
  rw [is_valid_iff_epoch]
  simp [Epoch.is_valid, get_epoch]

theorem equals_serial_order_iff (a b : XctId) :
    a.equals_serial_order b = true ↔ a.data_ / 2 ^ 4 % 2 ^ 60 = b.data_ / 2 ^ 4 % 2 ^ 60 := by
  unfold equals_serial_order
  rw [and_kMaskSerializer, and_kMaskSerializer]
  simp only [beq_iff_eq]
  omega

theorem is_keylocked_iff (x : XctId) : x.is_keylocked = true ↔ x.data_ / 2 ^ 3 % 2 = 1 := by
  unfold is_keylocked
  rw [and_kKeylockBit]
  simp only [bne_iff_ne, ne_eq]
  omega

theorem is_rangelocked_iff (x : XctId) : x.is_rangelocked = true ↔ x.data_ / 2 ^ 2 % 2 = 1 := by
  unfold is_rangelocked
  rw [and_kRangelockBit]
  simp only [bne_iff_ne, ne_eq]
  omega

theorem is_deleted_iff (x : XctId) : x.is_deleted = true ↔ x.data_ / 2 ^ 1 % 2 = 1 := by
  unfold is_deleted
  rw [and_kDeleteBit]
  simp only [bne_iff_ne, ne_eq]
  omega

theorem is_moved_iff (x : XctId) : x.is_moved = true ↔ x.data_ % 2 = 1 := by
  unfold is_moved
  rw [and_kMovedBit]
  simp only [bne_iff_ne, ne_eq]
  omega

theorem is_status_bits_off_iff (x : XctId) :
    x.is_status_bits_off = true ↔ x.data_ % 2 ^ 4 = 0 := by
  have hk := is_keylocked_iff x
  have hr := is_rangelocked_iff x
  have hd := is_deleted_iff x
  have hm := is_moved_iff x
  unfold is_status_bits_off
  simp only [Bool.and_eq_true, Bool.not_eq_true_eq_eq_false, Bool.not_eq_eq_eq_not,
    Bool.not_true] at *
  rw [← Bool.not_eq_true, ← Bool.not_eq_true, ← Bool.not_eq_true, ← Bool.not_eq_true, hk, hr,
    hd, hm]
  omega

end XctId

/-! ## The order `before` -/

namespace XctId

/-- The epoch comparison on two epoch fields, in arithmetic form. -/
theorem epoch_before_iff (x y : Nat) :
    Epoch.before ⟨x⟩ ⟨y⟩ = true ↔
      x = 0 ∨ 2 ^ 27 ≤ ((x : Int) - (y : Int)) % 2 ^ 28 := by
  unfold Epoch.before Epoch.is_valid Epoch.signed_difference Epoch.kEpochIntOverflow
    Epoch.kEpochIntHalf Epoch.kEpochBits
  by_cases hx : x = 0
  · simp [hx]
  · simp only [bne_iff_ne, ne_eq, hx, not_false_eq_true, if_true, decide_eq_true_eq, false_or]
    norm_num
    split <;> omega

/-- A valid epoch is not before itself. -/
theorem epoch_before_self (x : Nat) (hx : x ≠ 0) : Epoch.before ⟨x⟩ ⟨x⟩ = false := by
  rw [← Bool.not_eq_true, epoch_before_iff]
  omega

/-- Whenever the unsigned comparison of the words says "less", `before` says "before". -/
theorem before_of_lt (a b : XctId) (h : a.data_ < b.data_) : a.before b = true := by
  unfold before
  split
  · rfl
  · exact decide_eq_true h

/-- The two branches of `before` as a disjunction. -/
theorem before_iff (a b : XctId) :
    a.before b = true ↔
      Epoch.before ⟨a.get_epoch_int⟩ ⟨b.get_epoch_int⟩ = true ∨ a.data_ < b.data_ := by
  unfold before get_epoch
  split <;> simp_all

/-- With equal valid epochs `before` is the unsigned comparison of the two words. -/
theorem before_same_epoch (a b : XctId) (ha : a.is_valid = true)
    (he : a.get_epoch_int = b.get_epoch_int) :
    a.before b = true ↔ a.data_ < b.data_ := by
  rw [before_iff, ← he, epoch_before_self _ ((is_valid_iff_epoch a).1 ha)]
  simp

end XctId

/-! ## Claims about `before` -/

/-- C1 (the claim as stated is false): the claim says that `a.before(b)` is false whenever
`a.equals_serial_order(b)`.  Here `a` is epoch 1, ordinal 0, thread 0 with no status bit and `b`
is the same transaction id with the moved bit set: `b` is valid, the two are equal in serial
order, and yet `before` returns true, because the tie is settled by comparing all 64 bits. -/
theorem C1_before_true_on_equal_serial_order :
    (XctId.mk (2 ^ 36)).is_word ∧ (XctId.mk (2 ^ 36 + 1)).is_word ∧
      (XctId.mk (2 ^ 36 + 1)).is_valid = true ∧
      (XctId.mk (2 ^ 36)).equals_serial_order (XctId.mk (2 ^ 36 + 1)) = true ∧
      (XctId.mk (2 ^ 36)).before (XctId.mk (2 ^ 36 + 1)) = true := by
  decide

/-- C1 (amended): on a tie in serialization order `before` compares the full 64-bit words.  For
every transaction id `a` and every valid `b` with `a.equals_serial_order(b)`, `a.before(b)` is
true exactly when the word of `a` is below the word of `b` as an unsigned integer, that is
exactly when the four status bits of `a`, read as a number, are below those of `b`; it is false
when `a` and `b` are equal in all bits, and false when the status bits of `b` are all off. -/
theorem C1_before_on_equal_serial_order (a b : XctId) (ha : a.is_word) (hb : b.is_word)
    (hvb : b.is_valid = true) (hs : a.equals_serial_order b = true) :
    (a.before b = true ↔ a.data_ < b.data_) ∧
      (a.before b = true ↔ a.data_ % 2 ^ 4 < b.data_ % 2 ^ 4) ∧
      (a.equals_all b = true → a.before b = false) ∧
      (b.is_status_bits_off = true → a.before b = false) := by
  rw [XctId.equals_serial_order_iff] at hs
  unfold XctId.is_word at ha hb
  have he : a.get_epoch_int = b.get_epoch_int := by
    rw [XctId.get_epoch_int_eq, XctId.get_epoch_int_eq]
    omega
  have hva : a.is_valid = true := by
    rw [XctId.is_valid_iff_epoch, he, ← XctId.is_valid_iff_epoch]
    exact hvb
  have hlt := XctId.before_same_epoch a b hva he
  refine ⟨hlt, ?_, ?_, ?_⟩
  · rw [hlt]
    omega
  · intro hall
    unfold XctId.equals_all at hall
    rw [beq_iff_eq] at hall
    rw [← Bool.not_eq_true, hlt, hall]
    exact Nat.lt_irrefl _
  · intro hoff
    rw [XctId.is_status_bits_off_iff] at hoff
    rw [← Bool.not_eq_true, hlt]
    omega

theorem C1_before_on_equal_serial_order_witness :
    ((XctId.mk (5 * 2 ^ 36 + 9)).before (XctId.mk (5 * 2 ^ 36 + 2)) = true ↔
        (XctId.mk (5 * 2 ^ 36 + 9)).data_ % 2 ^ 4 < (XctId.mk (5 * 2 ^ 36 + 2)).data_ % 2 ^ 4) :=
  (C1_before_on_equal_serial_order ⟨5 * 2 ^ 36 + 9⟩ ⟨5 * 2 ^ 36 + 2⟩ (by decide) (by decide)
    (by decide) (by decide)).2.1

/-- C2: a transaction id whose epoch field is 0 is before every transaction id whose epoch
field is not 0, whatever the ordinals, thread ids and status bits, and also for epochs in the
upper half of the 28-bit range.  The unsigned comparison of the words alone already says so. -/
theorem C2_invalid_epoch_before_every_valid (a b : XctId) (ha : a.is_word)
    (hea : a.get_epoch_int = 0) (heb : b.get_epoch_int ≠ 0) :
    a.before b = true ∧ a.data_ < b.data_ := by
  have hlt : a.data_ < b.data_ := by
    rw [XctId.get_epoch_int_eq] at hea heb
    unfold XctId.is_word at ha
    omega
  exact ⟨XctId.before_of_lt a b hlt, hlt⟩

theorem C2_invalid_epoch_before_every_valid_witness :
    (XctId.mk (0xFFFFFFFFF)).before (XctId.mk (0xFFFFFFF000000000)) = true ∧
      (XctId.mk (0xFFFFFFFFF)).data_ < (XctId.mk (0xFFFFFFF000000000)).data_ :=
  C2_invalid_epoch_before_every_valid ⟨0xFFFFFFFFF⟩ ⟨0xFFFFFFF000000000⟩
    (by decide) (by decide) (by decide)

/-- C3 (the code at the failing input): the claim says that `before` is antisymmetric for valid
ids whose epochs are less than `2^27` apart modulo `2^28`.  Here `a` has epoch `2^28 - 1` and `b`
has epoch 1, two steps apart across the wrap-around: `a.before(b)` is true by the epoch
comparison, and `b.before(a)` is true as well, because the fall-back to the unsigned word
comparison is taken although the epochs differ. -/
theorem C3_before_both_ways_across_wrap :
    (XctId.mk ((2 ^ 28 - 1) * 2 ^ 36)).is_word ∧ (XctId.mk (2 ^ 36)).is_word ∧
      (XctId.mk ((2 ^ 28 - 1) * 2 ^ 36)).is_valid = true ∧ (XctId.mk (2 ^ 36)).is_valid = true ∧
      epoch_separation (XctId.mk ((2 ^ 28 - 1) * 2 ^ 36)).get_epoch_int
        (XctId.mk (2 ^ 36)).get_epoch_int = 2 ∧
      (XctId.mk ((2 ^ 28 - 1) * 2 ^ 36)).before (XctId.mk (2 ^ 36)) = true ∧
      (XctId.mk (2 ^ 36)).before (XctId.mk ((2 ^ 28 - 1) * 2 ^ 36)) = true := by
  decide

/-- C4 (the code at the failing input): the claim says that `before` is transitive for valid
ids whose epochs are pairwise less than `2^27` apart modulo `2^28`.  Here `a`, `b`, `c` have the
epochs `2^28 - 1`, `1`, `2^28 - 2`, pairwise at most 3 apart: `a.before(b)` holds by the epoch
comparison, `b.before(c)` holds by the unsigned word comparison, and `a.before(c)` is false. -/
theorem C4_before_not_transitive_across_wrap :
    (XctId.mk ((2 ^ 28 - 1) * 2 ^ 36)).is_valid = true ∧ (XctId.mk (2 ^ 36)).is_valid = true ∧
      (XctId.mk ((2 ^ 28 - 2) * 2 ^ 36)).is_valid = true ∧
      epoch_separation (2 ^ 28 - 1) 1 = 2 ∧ epoch_separation 1 (2 ^ 28 - 2) = 3 ∧
      epoch_separation (2 ^ 28 - 1) (2 ^ 28 - 2) = 1 ∧
      (XctId.mk ((2 ^ 28 - 1) * 2 ^ 36)).get_epoch_int = 2 ^ 28 - 1 ∧
      (XctId.mk (2 ^ 36)).get_epoch_int = 1 ∧
      (XctId.mk ((2 ^ 28 - 2) * 2 ^ 36)).get_epoch_int = 2 ^ 28 - 2 ∧
      (XctId.mk ((2 ^ 28 - 1) * 2 ^ 36)).before (XctId.mk (2 ^ 36)) = true ∧
      (XctId.mk (2 ^ 36)).before (XctId.mk ((2 ^ 28 - 2) * 2 ^ 36)) = true ∧
      (XctId.mk ((2 ^ 28 - 1) * 2 ^ 36)).before (XctId.mk ((2 ^ 28 - 2) * 2 ^ 36)) = false := by
  decide

/-- C5: for two valid transaction ids (`b` is valid as soon as `a` is, the epoch fields being
equal) with the same epoch field and all four status bits off,
`a.before(b)` holds exactly when the pair (ordinal, thread id) of `a` is lexicographically below
that of `b`, and exactly when the in-epoch order of `a` is below that of `b`. -/
theorem C5_before_within_epoch (a b : XctId) (ha : a.is_word) (hb : b.is_word)
    (hva : a.is_valid = true) (he : a.get_epoch_int = b.get_epoch_int)
    (hsa : a.is_status_bits_off = true) (hsb : b.is_status_bits_off = true) :
    (a.before b = true ↔
        (a.get_ordinal < b.get_ordinal ∨
          (a.get_ordinal = b.get_ordinal ∧ a.get_thread_id < b.get_thread_id))) ∧
      (a.before b = true ↔ a.get_in_epoch_xct_order < b.get_in_epoch_xct_order) := by
  rw [XctId.before_same_epoch a b hva he]
  rw [XctId.get_epoch_int_eq, XctId.get_epoch_int_eq] at he
  rw [XctId.is_status_bits_off_iff] at hsa hsb
  rw [XctId.get_ordinal_eq, XctId.get_ordinal_eq, XctId.get_thread_id_eq, XctId.get_thread_id_eq,
    XctId.get_in_epoch_xct_order_eq, XctId.get_in_epoch_xct_order_eq]
  unfold XctId.is_word at ha hb
  constructor <;> omega

theorem C5_before_within_epoch_witness :
    ((XctId.mk (5 * 2 ^ 36 + 1 * 2 ^ 20 + 7 * 2 ^ 4)).before
          (XctId.mk (5 * 2 ^ 36 + 2 * 2 ^ 20 + 3 * 2 ^ 4)) = true ↔
        ((XctId.mk (5 * 2 ^ 36 + 1 * 2 ^ 20 + 7 * 2 ^ 4)).get_ordinal <
            (XctId.mk (5 * 2 ^ 36 + 2 * 2 ^ 20 + 3 * 2 ^ 4)).get_ordinal ∨
          ((XctId.mk (5 * 2 ^ 36 + 1 * 2 ^ 20 + 7 * 2 ^ 4)).get_ordinal =
              (XctId.mk (5 * 2 ^ 36 + 2 * 2 ^ 20 + 3 * 2 ^ 4)).get_ordinal ∧
            (XctId.mk (5 * 2 ^ 36 + 1 * 2 ^ 20 + 7 * 2 ^ 4)).get_thread_id <
              (XctId.mk (5 * 2 ^ 36 + 2 * 2 ^ 20 + 3 * 2 ^ 4)).get_thread_id))) ∧
      ((XctId.mk (5 * 2 ^ 36 + 1 * 2 ^ 20 + 7 * 2 ^ 4)).before
          (XctId.mk (5 * 2 ^ 36 + 2 * 2 ^ 20 + 3 * 2 ^ 4)) = true ↔
        (XctId.mk (5 * 2 ^ 36 + 1 * 2 ^ 20 + 7 * 2 ^ 4)).get_in_epoch_xct_order <
          (XctId.mk (5 * 2 ^ 36 + 2 * 2 ^ 20 + 3 * 2 ^ 4)).get_in_epoch_xct_order) :=
  C5_before_within_epoch ⟨5 * 2 ^ 36 + 1 * 2 ^ 20 + 7 * 2 ^ 4⟩ ⟨5 * 2 ^ 36 + 2 * 2 ^ 20 + 3 * 2 ^ 4⟩
    (by decide) (by decide) (by decide) (by decide) (by decide) (by decide)

/-! ## Claims about `set_clean` and the layout -/

/-- The word written by `set_clean` for arguments in range. -/
theorem set_clean_data (prior : XctId) (e o t : Nat) (he : e < 2 ^ 28) (ho : o < 2 ^ 16)
    (ht : t < 2 ^ 16) :
    (prior.set_clean e o t).data_ = e * 2 ^ 36 + o * 2 ^ 20 + t * 2 ^ 4 := by
  unfold XctId.set_clean kShiftEpoch kShiftOrdinal kShiftThreadId
  have h1 : e % 2 ^ 32 = e := Nat.mod_eq_of_lt (by omega)
  have h2 : o % 2 ^ 16 = o := Nat.mod_eq_of_lt ho
  have h3 : t % 2 ^ 16 = t := Nat.mod_eq_of_lt ht
  have h4 : (e <<< 36) % 2 ^ 64 = e <<< 36 := by
    rw [Nat.shiftLeft_eq]
    exact Nat.mod_eq_of_lt (by omega)
  simp only [h1, h2, h3, h4]
  exact shl_or3 e o t ho ht

/-- C6: `set_clean(e, o, t)` with `e < 2^28` and 16-bit `o`, `t` writes a word that does not
depend on the prior word and from which the getters read back `e`, `o` and `t`, with the
key-lock, range-lock, delete and moved bits all zero. -/
theorem C6_set_clean_round_trip (prior : XctId) (e o t : Nat) (he : e < 2 ^ 28)
    (ho : o < 2 ^ 16) (ht : t < 2 ^ 16) :
    (prior.set_clean e o t).get_epoch_int = e ∧
      (prior.set_clean e o t).get_ordinal = o ∧
      (prior.set_clean e o t).get_thread_id = t ∧
      (prior.set_clean e o t).is_status_bits_off = true ∧
      (prior.set_clean e o t).is_keylocked = false ∧
      (prior.set_clean e o t).is_rangelocked = false ∧
      (prior.set_clean e o t).is_deleted = false ∧
      (prior.set_clean e o t).is_moved = false ∧
      (prior.set_clean e o t).is_word ∧
      ∀ other : XctId, other.set_clean e o t = prior.set_clean e o t := by
  have hd := set_clean_data prior e o t he ho ht
  refine ⟨?_, ?_, ?_, ?_, ?_, ?_, ?_, ?_, ?_, ?_⟩
  · rw [XctId.get_epoch_int_eq, hd]; omega
  · rw [XctId.get_ordinal_eq, hd]; omega
  · rw [XctId.get_thread_id_eq, hd]; omega
  · rw [XctId.is_status_bits_off_iff, hd]; omega
  · rw [← Bool.not_eq_true, XctId.is_keylocked_iff, hd]; omega
  · rw [← Bool.not_eq_true, XctId.is_rangelocked_iff, hd]; omega
  · rw [← Bool.not_eq_true, XctId.is_deleted_iff, hd]; omega
  · rw [← Bool.not_eq_true, XctId.is_moved_iff, hd]; omega
  · unfold XctId.is_word; rw [hd]; omega
  · intro other
    rfl

theorem C6_set_clean_round_trip_witness :
    ((XctId.mk 0xFFFFFFFFFFFFFFFF).set_clean 5 1 3).get_epoch_int = 5 ∧
      ((XctId.mk 0xFFFFFFFFFFFFFFFF).set_clean 5 1 3).get_ordinal = 1 ∧
      ((XctId.mk 0xFFFFFFFFFFFFFFFF).set_clean 5 1 3).get_thread_id = 3 ∧
      ((XctId.mk 0xFFFFFFFFFFFFFFFF).set_clean 5 1 3).is_status_bits_off = true ∧
      ((XctId.mk 0xFFFFFFFFFFFFFFFF).set_clean 5 1 3).is_keylocked = false ∧
      ((XctId.mk 0xFFFFFFFFFFFFFFFF).set_clean 5 1 3).is_rangelocked = false ∧
      ((XctId.mk 0xFFFFFFFFFFFFFFFF).set_clean 5 1 3).is_deleted = false ∧
      ((XctId.mk 0xFFFFFFFFFFFFFFFF).set_clean 5 1 3).is_moved = false ∧
      ((XctId.mk 0xFFFFFFFFFFFFFFFF).set_clean 5 1 3).is_word ∧
      ∀ other : XctId, other.set_clean 5 1 3 = (XctId.mk 0xFFFFFFFFFFFFFFFF).set_clean 5 1 3 :=
  C6_set_clean_round_trip ⟨0xFFFFFFFFFFFFFFFF⟩ 5 1 3 (by decide) (by decide) (by decide)

/-- C7: the word written by `set_clean(e, o, t)` is `e*2^36 + o*2^20 + t*2^4`: 28 bits of
epoch, then 16 bits of ordinal, then 16 bits of thread id, then the key-lock (bit 3), range-lock
(bit 2), delete (bit 1) and moved (bit 0) bits.  The seven masks are the corresponding runs of
bits, they are pairwise disjoint, together they cover exactly the 64 bits, and `kMaskSerializer`
is the upper 60 bits. -/
theorem C7_word_layout :
    (∀ (prior : XctId) (e o t : Nat), e < 2 ^ 28 → o < 2 ^ 16 → t < 2 ^ 16 →
        (prior.set_clean e o t).data_ = e * 2 ^ 36 + o * 2 ^ 20 + t * 2 ^ 4) ∧
      (kMaskEpoch = (2 ^ 28 - 1) * 2 ^ 36 ∧ kMaskOrdinal = (2 ^ 16 - 1) * 2 ^ 20 ∧
        kMaskThreadId = (2 ^ 16 - 1) * 2 ^ 4 ∧ kKeylockBit = 2 ^ 3 ∧ kRangelockBit = 2 ^ 2 ∧
        kDeleteBit = 2 ^ 1 ∧ kMovedBit = 2 ^ 0) ∧
      field_masks.Pairwise (fun m n => m &&& n = 0) ∧
      field_masks.foldl (fun m n => m ||| n) 0 = 2 ^ 64 - 1 ∧
      kMaskSerializer = (2 ^ 60 - 1) * 2 ^ 4 ∧
      (∀ i : Nat, kMaskSerializer.testBit i = decide (4 ≤ i ∧ i < 64)) := by
  refine ⟨fun prior e o t he ho ht => set_clean_data prior e o t he ho ht, by decide, by decide,
    by decide, by decide, ?_⟩
  intro i
  have h : kMaskSerializer = (2 ^ 60 - 1) * 2 ^ 4 := by decide
  rw [h, Nat.mul_comm, Nat.testBit_mul_pow_two, Nat.testBit_two_pow_sub_one]
  by_cases h4 : 4 ≤ i
  · by_cases h64 : i < 64
    · have : i - 4 < 60 := by omega
      simp [h4, h64, this]
    · have : ¬ (i - 4 < 60) := by omega
      simp [h4, h64, this]
  · simp [h4]

theorem C7_word_layout_witness :
    ((XctId.mk 0).set_clean 5 1 3).data_ = 5 * 2 ^ 36 + 1 * 2 ^ 20 + 3 * 2 ^ 4 :=
  C7_word_layout.1 ⟨0⟩ 5 1 3 (by decide) (by decide) (by decide)

/-! ## Claims about `store_max` -/

/-- C8: `store_max(other)` copies the word of `other` bit for bit when `other` is valid and
`self` is before it, and leaves `self` unchanged otherwise; whenever `other` is valid, the
resulting `self` is not before `other`. -/
theorem C8_store_max_is_max (self other : XctId) :
    (other.is_valid = true → self.before other = true →
        (self.store_max other).data_ = other.data_) ∧
      ((other.is_valid = false ∨ self.before other = false) → self.store_max other = self) ∧
      (other.is_valid = true → (self.store_max other).before other = false) := by
  have hv := XctId.epoch_is_valid_iff other
  refine ⟨?_, ?_, ?_⟩
  · intro h1 h2
    simp [XctId.store_max, hv.2 h1, h2]
  · intro h
    rcases h with h | h
    · have : other.get_epoch.is_valid = false := by
        rw [← Bool.not_eq_true, hv, h]
        simp
      simp [XctId.store_max, this]
    · simp [XctId.store_max, h]
  · intro h1
    cases h2 : self.before other
    · simp [XctId.store_max, h2]
    · have hs : self.store_max other = ⟨other.data_⟩ := by
        simp [XctId.store_max, hv.2 h1, h2]
      rw [hs, ← Bool.not_eq_true, XctId.before_same_epoch ⟨other.data_⟩ other h1 rfl]
      exact Nat.lt_irrefl _

theorem C8_store_max_is_max_witness :
    ((XctId.mk (5 * 2 ^ 36)).store_max (XctId.mk (6 * 2 ^ 36 + 9))).data_ = 6 * 2 ^ 36 + 9 ∧
      ((XctId.mk (5 * 2 ^ 36)).store_max (XctId.mk 9)) = XctId.mk (5 * 2 ^ 36) ∧
      ((XctId.mk (5 * 2 ^ 36)).store_max (XctId.mk (6 * 2 ^ 36 + 9))).before
        (XctId.mk (6 * 2 ^ 36 + 9)) = false :=
  ⟨(C8_store_max_is_max ⟨5 * 2 ^ 36⟩ ⟨6 * 2 ^ 36 + 9⟩).1 (by decide) (by decide),
    (C8_store_max_is_max ⟨5 * 2 ^ 36⟩ ⟨9⟩).2.1 (Or.inl (by decide)),
    (C8_store_max_is_max ⟨5 * 2 ^ 36⟩ ⟨6 * 2 ^ 36 + 9⟩).2.2 (by decide)⟩

/-! ## Claims about the derivation of the commit transaction id -/

/-- When `b` is valid and the epoch of `a` is not `2^27` or more above that of `b` as an
integer, `before` is the unsigned comparison of the two words. -/
theorem XctId.before_iff_lt_of_unwrapped (a b : XctId) (ha : a.is_word)
    (hvb : b.is_valid = true) (h : a.get_epoch_int < b.get_epoch_int + 2 ^ 27) :
    a.before b = true ↔ a.data_ < b.data_ := by
  constructor
  · intro hb
    rcases (XctId.before_iff a b).1 hb with he | hlt
    · rw [XctId.epoch_before_iff] at he
      rw [XctId.is_valid_iff] at hvb
      rw [XctId.get_epoch_int_eq] at he h
      rw [XctId.get_epoch_int_eq] at he h
      unfold XctId.is_word at ha
      omega
    · exact hlt
  · exact XctId.before_of_lt a b

/-- The start of the derivation: `set_clean` with a valid epoch gives a valid 64-bit word with
that epoch. -/
theorem set_clean_valid (prior : XctId) (e o t : Nat) (he0 : e ≠ 0) (he : e < 2 ^ 28) :
    (prior.set_clean e o t).is_word ∧ (prior.set_clean e o t).is_valid = true ∧
      (prior.set_clean e o t).get_epoch_int = e := by
  have hm : prior.set_clean e o t = prior.set_clean e (o % 2 ^ 16) (t % 2 ^ 16) := by
    simp [XctId.set_clean]
  have hd := set_clean_data prior e (o % 2 ^ 16) (t % 2 ^ 16) he
    (Nat.mod_lt _ (by decide)) (Nat.mod_lt _ (by decide))
  rw [← hm] at hd
  have ho : o % 2 ^ 16 < 2 ^ 16 := Nat.mod_lt _ (by decide)
  have ht : t % 2 ^ 16 < 2 ^ 16 := Nat.mod_lt _ (by decide)
  refine ⟨?_, ?_, ?_⟩
  · unfold XctId.is_word; rw [hd]; omega
  · rw [XctId.is_valid_iff, hd]; omega
  · rw [XctId.get_epoch_int_eq, hd]; omega

/-- Folding `store_max` over observed ids whose epochs have not wrapped yields the largest word:
the result is the start or one of the observed ids, and no word seen is above it. -/
theorem foldl_store_max_is_max (observed : List XctId) :
    ∀ c : XctId, c.is_word →
      (∀ t ∈ observed, t.is_word ∧ t.is_valid = true) →
      (∀ t ∈ observed, c.get_epoch_int < t.get_epoch_int + 2 ^ 27) →
      (∀ t ∈ observed, ∀ u ∈ observed, t.get_epoch_int < u.get_epoch_int + 2 ^ 27) →
      c.data_ ≤ (observed.foldl XctId.store_max c).data_ ∧
        (∀ t ∈ observed, t.data_ ≤ (observed.foldl XctId.store_max c).data_) ∧
        (observed.foldl XctId.store_max c = c ∨ observed.foldl XctId.store_max c ∈ observed) := by
  induction observed with
  | nil =>
    intro c _ _ _ _
    simp
  | cons t ts ih =>
    intro c hc hobs hcw hpw
    have ht := hobs t (List.mem_cons_self t ts)
    have hbt := XctId.before_iff_lt_of_unwrapped c t hc ht.2 (hcw t (List.mem_cons_self t ts))
    have hobs2 : ∀ u ∈ ts, u.is_word ∧ u.is_valid = true :=
      fun u hu => hobs u (List.mem_cons_of_mem t hu)
    have hpw2 : ∀ u ∈ ts, ∀ v ∈ ts, u.get_epoch_int < v.get_epoch_int + 2 ^ 27 :=
      fun u hu v hv => hpw u (List.mem_cons_of_mem t hu) v (List.mem_cons_of_mem t hv)
    rw [List.foldl_cons]
    by_cases hlt : c.data_ < t.data_
    · have hs : c.store_max t = t := by
        simp [XctId.store_max, (XctId.epoch_is_valid_iff t).2 ht.2, hbt.2 hlt]
      rw [hs]
      have h := ih t ht.1 hobs2
        (fun u hu => hpw t (List.mem_cons_self t ts) u (List.mem_cons_of_mem t hu)) hpw2
      refine ⟨by omega, ?_, ?_⟩
      · intro u hu
        rcases List.mem_cons.1 hu with rfl | hu
        · exact h.1
        · exact h.2.1 u hu
      · rcases h.2.2 with h3 | h3
        · right
          rw [h3]
          exact List.mem_cons_self t ts
        · right
          exact List.mem_cons_of_mem t h3
    · have hnb : c.before t = false := by
        rw [← Bool.not_eq_true, hbt]
        exact hlt
      have hs : c.store_max t = c := by
        simp [XctId.store_max, hnb]
      rw [hs]
      have h := ih c hc hobs2 (fun u hu => hcw u (List.mem_cons_of_mem t hu)) hpw2
      refine ⟨h.1, ?_, ?_⟩
      · intro u hu
        rcases List.mem_cons.1 hu with rfl | hu
        · omega
        · exact h.2.1 u hu
      · rcases h.2.2 with h3 | h3
        · left
          exact h3
        · right
          exact List.mem_cons_of_mem t h3

/-- C9 (the claim as stated is false): with commit epoch 1, local ordinal 0, thread 0 and the
single valid observed id (epoch 2, ordinal 0, thread 0), the derived id is that observed id
itself, so the observed id is not before it. -/
theorem C9_observed_not_strictly_before :
    (XctId.mk (2 * 2 ^ 36)).is_word ∧ (XctId.mk (2 * 2 ^ 36)).is_valid = true ∧
      derive_commit_tid 1 0 0 [XctId.mk (2 * 2 ^ 36)] = XctId.mk (2 * 2 ^ 36) ∧
      (XctId.mk (2 * 2 ^ 36)).before (derive_commit_tid 1 0 0 [XctId.mk (2 * 2 ^ 36)]) = false := by
  decide

/-- C9 (amended): for every valid epoch `E`, local ordinal, thread id and every list of valid
observed ids such that no wrap-around lies between the epochs (as integers, `E` is less than
`2^27` above every observed epoch and the observed epochs are pairwise less than `2^27` apart),
the id `c` obtained by `set_clean(E, local_ordinal+1, thread_id)` followed by `store_max` against
each observed id in turn is at or after every observed id `t`: `c` is never before `t`, and
either `t` is before `c` or `c` is `t` itself, bit for bit. -/
theorem C9_commit_tid_at_or_after_observed (E local_ordinal thread_id : Nat)
    (observed : List XctId) (hE0 : E ≠ 0) (hE : E < 2 ^ 28)
    (hobs : ∀ t ∈ observed, t.is_word ∧ t.is_valid = true)
    (hEw : ∀ t ∈ observed, E < t.get_epoch_int + 2 ^ 27)
    (hpw : ∀ t ∈ observed, ∀ u ∈ observed, t.get_epoch_int < u.get_epoch_int + 2 ^ 27) :
    ∀ t ∈ observed,
      (derive_commit_tid E local_ordinal thread_id observed).before t = false ∧
        (t.before (derive_commit_tid E local_ordinal thread_id observed) = true ∨
          derive_commit_tid E local_ordinal thread_id observed = t) := by
  intro t ht
  have h0 := set_clean_valid (XctId.mk 0) E (local_ordinal + 1) thread_id hE0 hE
  have hcw : ∀ u ∈ observed,
      ((XctId.mk 0).set_clean E (local_ordinal + 1) thread_id).get_epoch_int
        < u.get_epoch_int + 2 ^ 27 := by
    intro u hu
    rw [h0.2.2]
    exact hEw u hu
  have h := foldl_store_max_is_max observed _ h0.1 hobs hcw hpw
  unfold derive_commit_tid
  generalize observed.foldl XctId.store_max
    ((XctId.mk 0).set_clean E (local_ordinal + 1) thread_id) = c at h
  have hle : t.data_ ≤ c.data_ := h.2.1 t ht
  have hcword : c.is_word ∧ c.get_epoch_int < t.get_epoch_int + 2 ^ 27 := by
    rcases h.2.2 with h3 | h3
    · rw [h3]
      exact ⟨h0.1, hcw t ht⟩
    · exact ⟨(hobs c h3).1, hpw c h3 t ht⟩
  constructor
  · rw [← Bool.not_eq_true, XctId.before_iff_lt_of_unwrapped c t hcword.1 (hobs t ht).2
      hcword.2]
    omega
  · rcases Nat.lt_or_ge t.data_ c.data_ with hlt | hge
    · left
      exact XctId.before_of_lt t c hlt
    · right
      have : c.data_ = t.data_ := by omega
      cases c
      cases t
      simp_all

theorem C9_commit_tid_at_or_after_observed_witness :
    (derive_commit_tid 5 0 2
        [XctId.mk (5 * 2 ^ 36 + 7 * 2 ^ 20 + 8), XctId.mk (4 * 2 ^ 36 + 9 * 2 ^ 20)]).before
          (XctId.mk (4 * 2 ^ 36 + 9 * 2 ^ 20)) = false ∧
      ((XctId.mk (4 * 2 ^ 36 + 9 * 2 ^ 20)).before (derive_commit_tid 5 0 2
          [XctId.mk (5 * 2 ^ 36 + 7 * 2 ^ 20 + 8), XctId.mk (4 * 2 ^ 36 + 9 * 2 ^ 20)]) = true ∨
        derive_commit_tid 5 0 2
          [XctId.mk (5 * 2 ^ 36 + 7 * 2 ^ 20 + 8), XctId.mk (4 * 2 ^ 36 + 9 * 2 ^ 20)]
            = XctId.mk (4 * 2 ^ 36 + 9 * 2 ^ 20)) :=
  C9_commit_tid_at_or_after_observed 5 0 2
    [XctId.mk (5 * 2 ^ 36 + 7 * 2 ^ 20 + 8), XctId.mk (4 * 2 ^ 36 + 9 * 2 ^ 20)]
    (by decide) (by decide) (by decide) (by decide) (by decide)
    (XctId.mk (4 * 2 ^ 36 + 9 * 2 ^ 20)) (by decide)

/-- The hypothesis of the amended C9 on wrap-around is needed: with commit epoch `2^28 - 3` and
the valid observed ids of epochs `2^28 - 1`, `1`, `2^28 - 2` (all within 4 epochs of each other
round the circle), the derived id is the last observed id, and the first observed id is neither
before it nor equal to it. -/
theorem derive_commit_tid_across_wrap :
    derive_commit_tid (2 ^ 28 - 3) 0 0
        [XctId.mk ((2 ^ 28 - 1) * 2 ^ 36), XctId.mk (2 ^ 36), XctId.mk ((2 ^ 28 - 2) * 2 ^ 36)]
        = XctId.mk ((2 ^ 28 - 2) * 2 ^ 36) ∧
      (XctId.mk ((2 ^ 28 - 1) * 2 ^ 36)).before (XctId.mk ((2 ^ 28 - 2) * 2 ^ 36)) = false := by
  decide

/-! ## Claims about `keylock_fail_if_moved` -/

/-- One iteration on a word with the moved bit on: failure, word unchanged. -/
theorem keylock_fail_if_moved_moved (x : XctId) (fuel : Nat) (hm : x.is_moved = true) :
    x.keylock_fail_if_moved (fuel + 1) = some (false, x) := by
  unfold XctId.is_moved at hm
  simp [XctId.keylock_fail_if_moved, hm]

/-- One iteration on a word with the moved and key-lock bits off: the swap succeeds. -/
theorem keylock_fail_if_moved_free (x : XctId) (fuel : Nat) (hm : x.is_moved = false)
    (hk : x.is_keylocked = false) :
    x.keylock_fail_if_moved (fuel + 1) = some (true, ⟨x.data_ ||| kKeylockBit⟩) := by
  unfold XctId.is_moved at hm
  unfold XctId.is_keylocked at hk
  simp [XctId.keylock_fail_if_moved, hm, hk, raw_atomic_compare_exchange_weak]

/-- A false return happens only on a word with the moved bit on, which is left unchanged. -/
theorem keylock_fail_if_moved_false (fuel : Nat) :
    ∀ x r : XctId, x.keylock_fail_if_moved fuel = some (false, r) →
      x.is_moved = true ∧ r = x := by
  induction fuel with
  | zero =>
    intro x r h
    simp [XctId.keylock_fail_if_moved] at h
  | succ n ih =>
    intro x r h
    cases hm : x.is_moved
    · cases hk : x.is_keylocked
      · rw [keylock_fail_if_moved_free x n hm hk] at h
        simp at h
      · have hm2 := hm
        have hk2 := hk
        unfold XctId.is_moved at hm2
        unfold XctId.is_keylocked at hk2
        have hstep : x.keylock_fail_if_moved (n + 1) = x.keylock_fail_if_moved n := by
          simp [XctId.keylock_fail_if_moved, hm2, hk2]
        rw [hstep] at h
        have := ih x r h
        rw [hm] at this
        exact this
    · rw [keylock_fail_if_moved_moved x n hm] at h
      simp at h
      exact ⟨rfl, h.symm⟩

/-- C10: on a word whose moved bit is set, key-locked or not, `keylock_fail_if_moved` returns
false and leaves the word unchanged; on a word whose moved and key-lock bits are both clear it
returns true and the word becomes `old | kKeylockBit`, which is key-locked and has every bit
other than bit 3 unchanged; and a false return occurs only on a word whose moved bit is set. -/
theorem C10_keylock_fail_if_moved (x : XctId) (fuel : Nat) :
    (x.is_moved = true → x.keylock_fail_if_moved (fuel + 1) = some (false, x)) ∧
      (x.is_moved = false → x.is_keylocked = false →
        x.keylock_fail_if_moved (fuel + 1) = some (true, ⟨x.data_ ||| kKeylockBit⟩) ∧
          (XctId.mk (x.data_ ||| kKeylockBit)).is_keylocked = true ∧
          ∀ i : Nat, i ≠ 3 → (x.data_ ||| kKeylockBit).testBit i = x.data_.testBit i) ∧
      (∀ (n : Nat) (r : XctId), x.keylock_fail_if_moved n = some (false, r) →
        x.is_moved = true ∧ r = x) := by
  refine ⟨keylock_fail_if_moved_moved x fuel, ?_, fun n r h => keylock_fail_if_moved_false n x r h⟩
  intro hm hk
  have h8 : kKeylockBit = 2 ^ 3 := by decide
  refine ⟨keylock_fail_if_moved_free x fuel hm hk, ?_, ?_⟩
  · unfold XctId.is_keylocked
    have : (x.data_ ||| kKeylockBit) &&& kKeylockBit = kKeylockBit := by
      apply Nat.eq_of_testBit_eq
      intro i
      rw [Nat.testBit_and, Nat.testBit_or]
      cases x.data_.testBit i <;> cases kKeylockBit.testBit i <;> rfl
    simp only [this]
    decide
  · intro i hi
    rw [Nat.testBit_or, h8, Nat.testBit_two_pow_of_ne (Ne.symm hi)]
    simp

theorem C10_keylock_fail_if_moved_witness :
    (XctId.mk (5 * 2 ^ 36 + 9)).keylock_fail_if_moved 1 = some (false, XctId.mk (5 * 2 ^ 36 + 9)) ∧
      (XctId.mk (5 * 2 ^ 36 + 6)).keylock_fail_if_moved 1
        = some (true, XctId.mk ((5 * 2 ^ 36 + 6) ||| kKeylockBit)) :=
  ⟨(C10_keylock_fail_if_moved ⟨5 * 2 ^ 36 + 9⟩ 0).1 (by decide),
    ((C10_keylock_fail_if_moved ⟨5 * 2 ^ 36 + 6⟩ 0).2.1 (by decide) (by decide)).1⟩

/-! ## Claims about `keylock_unconditional` and `release_keylock` -/

/-- Masking with a field of `w` bits from bit `k` on together with the low `j` bits. -/
theorem and_field_or_low (x k w j : Nat) (hj : j ≤ k) :
    x &&& ((2 ^ w - 1) * 2 ^ k ||| (2 ^ j - 1)) = x / 2 ^ k % 2 ^ w * 2 ^ k + x % 2 ^ j := by
  rw [Nat.and_or_distrib_left, and_field, Nat.and_pow_two_sub_one_eq_mod]
  have h : x % 2 ^ j < 2 ^ k :=
    lt_of_lt_of_le (Nat.mod_lt _ (Nat.two_pow_pos j)) (Nat.pow_le_pow_right (by decide) hj)
  rw [Nat.mul_comm, Nat.mul_add_lt_is_or h]

/-- Masking out the key-lock bit keeps the upper 60 bits and the low 3 bits. -/
theorem and_not64_kKeylockBit (x : Nat) :
    x &&& not64 kKeylockBit = x / 2 ^ 4 % 2 ^ 60 * 2 ^ 4 + x % 2 ^ 3 := by
  have h : not64 kKeylockBit = (2 ^ 60 - 1) * 2 ^ 4 ||| (2 ^ 3 - 1) := by decide
  rw [h, and_field_or_low x 4 60 3 (by decide)]

/-- Or-ing in the key-lock bit adds 8 exactly when bit 3 is clear. -/
theorem or_kKeylockBit (x : Nat) : x ||| kKeylockBit = x + 8 - x / 2 ^ 3 % 2 * 8 := by
  rw [or_low x kKeylockBit 4 (by decide)]
  have h : ∀ r : Nat, r < 2 ^ 4 → r ||| kKeylockBit = r + 8 - r / 2 ^ 3 % 2 * 8 := by decide
  have h2 := h (x % 2 ^ 4) (Nat.mod_lt _ (by decide))
  omega

/-- On a 64-bit word without the key-lock bit, `keylock_unconditional` succeeds in its first
iteration. -/
theorem keylock_unconditional_free (x : XctId) (fuel : Nat) (hw : x.is_word)
    (hk : x.is_keylocked = false) :
    x.keylock_unconditional (fuel + 1) = some ⟨x.data_ ||| kKeylockBit⟩ := by
  have hk2 : ¬ (x.data_ / 2 ^ 3 % 2 = 1) := by
    rw [← XctId.is_keylocked_iff, hk]
    simp
  have he : x.data_ &&& not64 kKeylockBit = x.data_ := by
    rw [and_not64_kKeylockBit]
    unfold XctId.is_word at hw
    omega
  unfold XctId.is_keylocked at hk
  simp [XctId.keylock_unconditional, hk, he, raw_atomic_compare_exchange_weak]

/-- C12: on a 64-bit word observed with the key-lock bit clear, whatever its moved, delete and
range-lock bits, `keylock_unconditional` returns with the word `w | kKeylockBit`: the word is
key-locked, and its epoch, ordinal, thread id, range-lock, delete and moved bits are those of
`w`. -/
theorem C12_keylock_unconditional_sets_only_keylock (w : XctId) (fuel : Nat) (hw : w.is_word)
    (hk : w.is_keylocked = false) :
    w.keylock_unconditional (fuel + 1) = some ⟨w.data_ ||| kKeylockBit⟩ ∧
      (XctId.mk (w.data_ ||| kKeylockBit)).is_keylocked = true ∧
      (XctId.mk (w.data_ ||| kKeylockBit)).get_epoch_int = w.get_epoch_int ∧
      (XctId.mk (w.data_ ||| kKeylockBit)).get_ordinal = w.get_ordinal ∧
      (XctId.mk (w.data_ ||| kKeylockBit)).get_thread_id = w.get_thread_id ∧
      (XctId.mk (w.data_ ||| kKeylockBit)).is_rangelocked = w.is_rangelocked ∧
      (XctId.mk (w.data_ ||| kKeylockBit)).is_deleted = w.is_deleted ∧
      (XctId.mk (w.data_ ||| kKeylockBit)).is_moved = w.is_moved ∧
      ∀ i : Nat, i ≠ 3 → (w.data_ ||| kKeylockBit).testBit i = w.data_.testBit i := by
  have hk2 : ¬ (w.data_ / 2 ^ 3 % 2 = 1) := by
    rw [← XctId.is_keylocked_iff, hk]
    simp
  have hor := or_kKeylockBit w.data_
  refine ⟨keylock_unconditional_free w fuel hw hk, ?_, ?_, ?_, ?_, ?_, ?_, ?_, ?_⟩
  · rw [XctId.is_keylocked_iff]
    simp only []
    omega
  · rw [XctId.get_epoch_int_eq, XctId.get_epoch_int_eq]
    simp only []
    omega
  · rw [XctId.get_ordinal_eq, XctId.get_ordinal_eq]
    simp only []
    omega
  · rw [XctId.get_thread_id_eq, XctId.get_thread_id_eq]
    simp only []
    omega
  · rw [Bool.eq_iff_iff, XctId.is_rangelocked_iff, XctId.is_rangelocked_iff]
    simp only []
    omega
  · rw [Bool.eq_iff_iff, XctId.is_deleted_iff, XctId.is_deleted_iff]
    simp only []
    omega
  · rw [Bool.eq_iff_iff, XctId.is_moved_iff, XctId.is_moved_iff]
    simp only []
    omega
  · intro i hi
    have h8 : kKeylockBit = 2 ^ 3 := by decide
    rw [Nat.testBit_or, h8, Nat.testBit_two_pow_of_ne (Ne.symm hi)]
    simp

theorem C12_keylock_unconditional_sets_only_keylock_witness :
    (XctId.mk (5 * 2 ^ 36 + 7)).keylock_unconditional 1
        = some ⟨(5 * 2 ^ 36 + 7) ||| kKeylockBit⟩ ∧
      (XctId.mk ((5 * 2 ^ 36 + 7) ||| kKeylockBit)).is_moved = (XctId.mk (5 * 2 ^ 36 + 7)).is_moved :=
  ⟨(C12_keylock_unconditional_sets_only_keylock ⟨5 * 2 ^ 36 + 7⟩ 0 (by decide) (by decide)).1,
    (C12_keylock_unconditional_sets_only_keylock ⟨5 * 2 ^ 36 + 7⟩ 0 (by decide)
      (by decide)).2.2.2.2.2.2.2.1⟩

/-- C13: on a 64-bit word `w` with the key-lock bit clear, `keylock_unconditional` followed by
`release_keylock` gives `w` back; and on every key-locked 64-bit word `release_keylock` gives
`old & ~kKeylockBit`, which is not key-locked and agrees with the old word in the 63 other
bits. -/
theorem C13_release_keylock_undoes_keylock (w : XctId) (hw : w.is_word) :
    (w.is_keylocked = false → ∀ fuel : Nat,
        (w.keylock_unconditional (fuel + 1)).map XctId.release_keylock = some w) ∧
      (w.is_keylocked = true →
        w.release_keylock = ⟨w.data_ &&& not64 kKeylockBit⟩ ∧
          w.release_keylock.is_keylocked = false ∧
          w.release_keylock.is_word ∧
          w.release_keylock.data_ + 8 = w.data_ ∧
          ∀ i : Nat, i < 64 → i ≠ 3 → w.release_keylock.data_.testBit i = w.data_.testBit i) := by
  have hand := and_not64_kKeylockBit
  unfold XctId.is_word at hw
  constructor
  · intro hk fuel
    rw [keylock_unconditional_free w fuel hw hk]
    have hk2 : ¬ (w.data_ / 2 ^ 3 % 2 = 1) := by
      rw [← XctId.is_keylocked_iff, hk]
      simp
    have hor := or_kKeylockBit w.data_
    have h := hand (w.data_ ||| kKeylockBit)
    have : (w.data_ ||| kKeylockBit) &&& not64 kKeylockBit = w.data_ := by omega
    simp [XctId.release_keylock, this]
  · intro hk
    have hk2 := (XctId.is_keylocked_iff w).1 hk
    have h := hand w.data_
    refine ⟨rfl, ?_, ?_, ?_, ?_⟩
    · rw [← Bool.not_eq_true, XctId.is_keylocked_iff]
      unfold XctId.release_keylock
      simp only []
      omega
    · unfold XctId.is_word XctId.release_keylock
      simp only []
      omega
    · unfold XctId.release_keylock
      simp only []
      omega
    · intro i hi hne
      unfold XctId.release_keylock
      have hn : not64 kKeylockBit = 2 ^ 64 - (8 + 1) := by decide
      have h8 : (8 : Nat) = 2 ^ 3 := by decide
      simp only []
      rw [Nat.testBit_and, hn, Nat.testBit_two_pow_sub_succ (by decide), h8,
        Nat.testBit_two_pow_of_ne (Ne.symm hne)]
      simp [hi]

theorem C13_release_keylock_undoes_keylock_witness :
    ((XctId.mk (5 * 2 ^ 36 + 7)).keylock_unconditional 1).map XctId.release_keylock
        = some (XctId.mk (5 * 2 ^ 36 + 7)) ∧
      (XctId.mk (5 * 2 ^ 36 + 15)).release_keylock.is_keylocked = false :=
  ⟨(C13_release_keylock_undoes_keylock ⟨5 * 2 ^ 36 + 7⟩ (by decide)).1 (by decide) 0,
    ((C13_release_keylock_undoes_keylock ⟨5 * 2 ^ 36 + 15⟩ (by decide)).2 (by decide)).2.1⟩

/-! ## The moved bit is kept -/

/-- The moved bit is bit 0 of the word. -/
theorem XctId.is_moved_iff_testBit (x : XctId) : x.is_moved = true ↔ x.data_.testBit 0 = true := by
  rw [XctId.is_moved_iff, Nat.testBit_zero]
  simp

/-- A word masked with a mask that has bit 0, then or-ed with anything, keeps a set moved bit. -/
theorem moved_of_and_or (x m b : Nat) (hx : x.testBit 0 = true) (hmask : m.testBit 0 = true) :
    (XctId.mk ((x &&& m) ||| b)).is_moved = true := by
  rw [XctId.is_moved_iff_testBit]
  simp only []
  rw [Nat.testBit_or, Nat.testBit_and, hx, hmask]
  rfl

/-- A word masked with a mask that has bit 0 keeps a set moved bit. -/
theorem moved_of_and (x m : Nat) (hx : x.testBit 0 = true) (hmask : m.testBit 0 = true) :
    (XctId.mk (x &&& m)).is_moved = true := by
  have h := moved_of_and_or x m 0 hx hmask
  rwa [Nat.or_zero] at h

/-- A word or-ed with anything keeps a set moved bit. -/
theorem moved_of_or (x b : Nat) (hx : x.testBit 0 = true) :
    (XctId.mk (x ||| b)).is_moved = true := by
  rw [XctId.is_moved_iff_testBit]
  simp only []
  rw [Nat.testBit_or, hx]
  rfl

/-- Whenever `keylock_unconditional` returns, the word is the old one with the key-lock bit
set. -/
theorem keylock_unconditional_some (fuel : Nat) :
    ∀ x r : XctId, x.keylock_unconditional fuel = some r →
      r = ⟨(x.data_ &&& not64 kKeylockBit) ||| kKeylockBit⟩ := by
  induction fuel with
  | zero =>
    intro x r h
    simp [XctId.keylock_unconditional] at h
  | succ n ih =>
    intro x r h
    unfold XctId.keylock_unconditional at h
    split at h
    · exact ih x r h
    · simp only [raw_atomic_compare_exchange_weak] at h
      split at h
      · next heq =>
        split at heq
        · simp only [Prod.mk.injEq] at heq
          rw [← heq.2.1] at h
          exact (Option.some.inj h).symm
        · simp at heq
      · next heq =>
        split at heq
        · simp at heq
        · simp only [Prod.mk.injEq] at heq
          rw [← heq.2.1] at h
          exact ih x r h

/-- Whenever `rangelock_unconditional` returns, the word is the old one with the range-lock bit
set. -/
theorem rangelock_unconditional_some (fuel : Nat) :
    ∀ x r : XctId, x.rangelock_unconditional fuel = some r →
      r = ⟨(x.data_ &&& kUnmaskRangelock) ||| kRangelockBit⟩ := by
  induction fuel with
  | zero =>
    intro x r h
    simp [XctId.rangelock_unconditional] at h
  | succ n ih =>
    intro x r h
    unfold XctId.rangelock_unconditional at h
    simp only [raw_atomic_compare_exchange_weak] at h
    split at h
    · next heq =>
      split at heq
      · simp only [Prod.mk.injEq] at heq
        rw [← heq.2.1] at h
        exact (Option.some.inj h).symm
      · simp at heq
    · next heq =>
      split at heq
      · simp at heq
      · simp only [Prod.mk.injEq] at heq
        rw [← heq.2.1] at h
        exact ih x r h

/-- On a 64-bit word without the range-lock bit, `rangelock_unconditional` succeeds in its first
iteration. -/
theorem rangelock_unconditional_free (x : XctId) (fuel : Nat) (hw : x.is_word)
    (hr : x.is_rangelocked = false) :
    x.rangelock_unconditional (fuel + 1) = some ⟨x.data_ ||| kRangelockBit⟩ := by
  have hr2 : ¬ (x.data_ / 2 ^ 2 % 2 = 1) := by
    rw [← XctId.is_rangelocked_iff, hr]
    simp
  have hm : kUnmaskRangelock = (2 ^ 61 - 1) * 2 ^ 3 ||| (2 ^ 2 - 1) := by decide
  have he : x.data_ &&& kUnmaskRangelock = x.data_ := by
    rw [hm, and_field_or_low x.data_ 3 61 2 (by decide)]
    unfold XctId.is_word at hw
    omega
  simp [XctId.rangelock_unconditional, he, raw_atomic_compare_exchange_weak]

/-- C14: once the moved bit of an owner word is set, it is still set after each of
`keylock_unconditional`, `keylock_fail_if_moved`, `release_keylock`, `rangelock_unconditional`,
`release_rangelock`, `initial_lock`, `initial_unlock`, `set_deleted`, `set_notdeleted`,
`set_moved`, `set_epoch_int`, `set_ordinal` and `set_thread_id`.  For the three spinning
operations this holds for whatever word they return with, and they do return: the two
unconditional locks on a 64-bit word whose lock bit is clear, `keylock_fail_if_moved` always
(with failure, the word being moved). -/
theorem C14_moved_bit_is_kept (x : XctId) (hm : x.is_moved = true) :
    (∀ (fuel : Nat) (r : XctId), x.keylock_unconditional fuel = some r → r.is_moved = true) ∧
      (∀ (fuel : Nat) (b : Bool) (r : XctId),
        x.keylock_fail_if_moved fuel = some (b, r) → r.is_moved = true) ∧
      x.release_keylock.is_moved = true ∧
      (∀ (fuel : Nat) (r : XctId), x.rangelock_unconditional fuel = some r → r.is_moved = true) ∧
      x.release_rangelock.is_moved = true ∧
      x.initial_lock.is_moved = true ∧
      x.initial_unlock.is_moved = true ∧
      x.set_deleted.is_moved = true ∧
      x.set_notdeleted.is_moved = true ∧
      x.set_moved.is_moved = true ∧
      (∀ epoch : Nat, (x.set_epoch_int epoch).is_moved = true) ∧
      (∀ ordinal : Nat, (x.set_ordinal ordinal).is_moved = true) ∧
      (∀ id : Nat, (x.set_thread_id id).is_moved = true) ∧
      (x.is_word → x.is_keylocked = false →
        ∀ fuel : Nat, ∃ r : XctId, x.keylock_unconditional (fuel + 1) = some r) ∧
      (∀ fuel : Nat, x.keylock_fail_if_moved (fuel + 1) = some (false, x)) ∧
      (x.is_word → x.is_rangelocked = false →
        ∀ fuel : Nat, ∃ r : XctId, x.rangelock_unconditional (fuel + 1) = some r) := by
  have h0 := (XctId.is_moved_iff_testBit x).1 hm
  refine ⟨?_, ?_, ?_, ?_, ?_, ?_, ?_, ?_, ?_, ?_, ?_, ?_, ?_, ?_, ?_, ?_⟩
  · intro fuel r h
    rw [keylock_unconditional_some fuel x r h]
    exact moved_of_and_or _ _ _ h0 (by decide)
  · intro fuel b r h
    cases fuel with
    | zero => simp [XctId.keylock_fail_if_moved] at h
    | succ n =>
      rw [keylock_fail_if_moved_moved x n hm] at h
      simp only [Option.some.injEq, Prod.mk.injEq] at h
      rw [← h.2]
      exact hm
  · exact moved_of_and _ _ h0 (by decide)
  · intro fuel r h
    rw [rangelock_unconditional_some fuel x r h]
    exact moved_of_and_or _ _ _ h0 (by decide)
  · exact moved_of_and _ _ h0 (by decide)
  · exact moved_of_or _ _ h0
  · exact moved_of_and _ _ h0 (by decide)
  · exact moved_of_or _ _ h0
  · exact moved_of_and _ _ h0 (by decide)
  · exact moved_of_or _ _ h0
  · intro epoch
    exact moved_of_and_or _ _ _ h0 (by decide)
  · intro ordinal
    exact moved_of_and_or _ _ _ h0 (by decide)
  · intro id
    exact moved_of_and_or _ _ _ h0 (by decide)
  · intro hw hk fuel
    exact ⟨_, keylock_unconditional_free x fuel hw hk⟩
  · intro fuel
    exact keylock_fail_if_moved_moved x fuel hm
  · intro hw hr fuel
    exact ⟨_, rangelock_unconditional_free x fuel hw hr⟩

theorem C14_moved_bit_is_kept_witness :
    (XctId.mk (5 * 2 ^ 36 + 9)).release_keylock.is_moved = true ∧
      ((XctId.mk (5 * 2 ^ 36 + 9)).set_epoch_int 7).is_moved = true :=
  ⟨(C14_moved_bit_is_kept ⟨5 * 2 ^ 36 + 9⟩ (by decide)).2.2.1,
    (C14_moved_bit_is_kept ⟨5 * 2 ^ 36 + 9⟩ (by decide)).2.2.2.2.2.2.2.2.2.2.1 7⟩

/-! ## Equality in serial order and the in-epoch order -/

/-- Or-ing a status bit into a word does not change the word under `kMaskSerializer`. -/
theorem or_status_bit_serializer (x bit : Nat) (hb : bit ∈ status_bits) :
    (x ||| bit) &&& kMaskSerializer = x &&& kMaskSerializer := by
  have h : bit &&& kMaskSerializer = 0 := by
    simp only [status_bits, List.mem_cons, List.mem_singleton, List.not_mem_nil, or_false] at hb
    rcases hb with rfl | rfl | rfl | rfl <;> decide
  rw [Nat.and_distrib_right, h, Nat.or_zero]

/-- Masking a status bit out of a word does not change the word under `kMaskSerializer`. -/
theorem and_not_status_bit_serializer (x bit : Nat) (hb : bit ∈ status_bits) :
    (x &&& not64 bit) &&& kMaskSerializer = x &&& kMaskSerializer := by
  have h : not64 bit &&& kMaskSerializer = kMaskSerializer := by
    simp only [status_bits, List.mem_cons, List.mem_singleton, List.not_mem_nil, or_false] at hb
    rcases hb with rfl | rfl | rfl | rfl <;> decide
  rw [Nat.and_assoc, h]

/-- Or-ing in a status bit that is clear changes the word. -/
theorem or_status_bit_ne (x bit : Nat) (hb : bit ∈ status_bits) (hc : x &&& bit = 0) :
    x ||| bit ≠ x := by
  intro h
  have h2 : (x ||| bit) &&& bit = bit := by
    apply Nat.eq_of_testBit_eq
    intro i
    rw [Nat.testBit_and, Nat.testBit_or]
    cases x.testBit i <;> cases bit.testBit i <;> rfl
  rw [h, hc] at h2
  simp only [status_bits, List.mem_cons, List.mem_singleton, List.not_mem_nil, or_false] at hb
  rcases hb with rfl | rfl | rfl | rfl <;> exact absurd h2 (by decide)

/-- Masking out a status bit that is set changes the word. -/
theorem and_not_status_bit_ne (x bit : Nat) (hs : x &&& bit ≠ 0) : x &&& not64 bit ≠ x := by
  intro h
  apply hs
  have h2 : not64 bit &&& bit = 0 := by
    unfold not64
    apply Nat.eq_of_testBit_eq
    intro i
    rw [Nat.testBit_and, Nat.zero_testBit]
    have hlt : bit % 2 ^ 64 < 2 ^ 64 := Nat.mod_lt _ (by decide)
    have he : 2 ^ 64 - 1 - bit % 2 ^ 64 = 2 ^ 64 - (bit % 2 ^ 64 + 1) := by omega
    rw [he, Nat.testBit_two_pow_sub_succ hlt, Nat.testBit_mod_two_pow]
    cases bit.testBit i <;> simp
  rw [← h, Nat.and_assoc, h2, Nat.and_zero]

/-- C15: `a.equals_serial_order(b)` holds exactly when `a` and `b` have the same epoch, ordinal
and thread id, while `a.equals_all(b)` holds exactly when the two words are equal;
`a.equals_all(b)` implies `a.equals_serial_order(b)`; setting or clearing a key-lock, range-lock,
delete or moved bit of `a` never changes `a.equals_serial_order(b)`; and it does change
`equals_all`: when the bit really changes, the old word is `equals_all` to itself and the new one
is not `equals_all` to it (although still equal to it in serial order), and the new word is not
`equals_all` to any `b` that the old one was `equals_all` to, nor the other way round. -/
theorem C15_equals_serial_order_masks_status (a b : XctId) :
    (a.equals_serial_order b = true ↔
        (a.get_epoch_int = b.get_epoch_int ∧ a.get_ordinal = b.get_ordinal ∧
          a.get_thread_id = b.get_thread_id)) ∧
      (a.equals_all b = true → a.equals_serial_order b = true) ∧
      (∀ bit ∈ status_bits,
        (XctId.mk (a.data_ ||| bit)).equals_serial_order b = a.equals_serial_order b ∧
          (XctId.mk (a.data_ &&& not64 bit)).equals_serial_order b = a.equals_serial_order b) ∧
      (∀ bit ∈ status_bits, a.data_ &&& bit = 0 →
        (XctId.mk (a.data_ ||| bit)).equals_all a = false ∧
          (a.equals_all b = true → (XctId.mk (a.data_ ||| bit)).equals_all b = false) ∧
          ((XctId.mk (a.data_ ||| bit)).equals_all b = true → a.equals_all b = false) ∧
          a.equals_all (XctId.mk (a.data_ ||| bit)) = false ∧
          (XctId.mk (a.data_ ||| bit)).equals_all (XctId.mk (a.data_ ||| bit)) = true ∧
          (XctId.mk (a.data_ ||| bit)).equals_serial_order a = true) ∧
      (∀ bit ∈ status_bits, a.data_ &&& bit ≠ 0 →
        (XctId.mk (a.data_ &&& not64 bit)).equals_all a = false ∧
          (a.equals_all b = true → (XctId.mk (a.data_ &&& not64 bit)).equals_all b = false) ∧
          ((XctId.mk (a.data_ &&& not64 bit)).equals_all b = true → a.equals_all b = false) ∧
          a.equals_all (XctId.mk (a.data_ &&& not64 bit)) = false ∧
          (XctId.mk (a.data_ &&& not64 bit)).equals_all (XctId.mk (a.data_ &&& not64 bit))
            = true ∧
          (XctId.mk (a.data_ &&& not64 bit)).equals_serial_order a = true) ∧
      (a.equals_all b = true ↔ a.data_ = b.data_) ∧
      (a.equals_all b = false ↔ a.data_ ≠ b.data_) ∧
      a.equals_all a = true ∧
      a.equals_serial_order a = true := by
  have hall : ∀ x y : XctId, x.equals_all y = true ↔ x.data_ = y.data_ := by
    intro x y
    unfold XctId.equals_all
    exact beq_iff_eq
  have hnall : ∀ x y : XctId, x.equals_all y = false ↔ x.data_ ≠ y.data_ := by
    intro x y
    rw [← Bool.not_eq_true, hall]
  have hser : ∀ x : XctId, x.equals_serial_order x = true := by
    intro x
    unfold XctId.equals_serial_order
    exact beq_self_eq_true _
  refine ⟨?_, ?_, ?_, ?_, ?_, hall a b, hnall a b, (hall a a).2 rfl, hser a⟩
  · rw [XctId.equals_serial_order_iff, XctId.get_epoch_int_eq, XctId.get_epoch_int_eq,
      XctId.get_ordinal_eq, XctId.get_ordinal_eq, XctId.get_thread_id_eq, XctId.get_thread_id_eq]
    omega
  · intro h
    rw [hall] at h
    unfold XctId.equals_serial_order
    rw [h]
    exact beq_self_eq_true _
  · intro bit hb
    unfold XctId.equals_serial_order
    simp only []
    rw [or_status_bit_serializer _ _ hb, and_not_status_bit_serializer _ _ hb]
    exact ⟨rfl, rfl⟩
  · intro bit hb hc
    have hne := or_status_bit_ne a.data_ bit hb hc
    refine ⟨(hnall _ _).2 hne, ?_, ?_, (hnall _ _).2 (Ne.symm hne), (hall _ _).2 rfl, ?_⟩
    · intro h
      rw [hall] at h
      rw [hnall, ← h]
      exact hne
    · intro h
      rw [hall] at h
      rw [hnall, ← h]
      exact Ne.symm hne
    · unfold XctId.equals_serial_order
      simp only []
      rw [or_status_bit_serializer _ _ hb]
      exact beq_self_eq_true _
  · intro bit hb hs
    have hne := and_not_status_bit_ne a.data_ bit hs
    refine ⟨(hnall _ _).2 hne, ?_, ?_, (hnall _ _).2 (Ne.symm hne), (hall _ _).2 rfl, ?_⟩
    · intro h
      rw [hall] at h
      rw [hnall, ← h]
      exact hne
    · intro h
      rw [hall] at h
      rw [hnall, ← h]
      exact Ne.symm hne
    · unfold XctId.equals_serial_order
      simp only []
      rw [and_not_status_bit_serializer _ _ hb]
      exact beq_self_eq_true _

theorem C15_equals_serial_order_masks_status_witness :
    (XctId.mk (5 * 2 ^ 36 + 9)).equals_serial_order (XctId.mk (5 * 2 ^ 36 + 9)) = true ∧
      (XctId.mk ((5 * 2 ^ 36 + 9) ||| kDeleteBit)).equals_all (XctId.mk (5 * 2 ^ 36 + 9))
        = false :=
  ⟨(C15_equals_serial_order_masks_status ⟨5 * 2 ^ 36 + 9⟩ ⟨5 * 2 ^ 36 + 9⟩).2.1 (by decide),
    ((C15_equals_serial_order_masks_status ⟨5 * 2 ^ 36 + 9⟩ ⟨5 * 2 ^ 36 + 9⟩).2.2.2.1
      kDeleteBit (by decide) (by decide)).1⟩

/-- C16: for every transaction id, whatever its epoch and status bits,
`get_in_epoch_xct_order()` is `get_ordinal() * 2^16 + get_thread_id()`, a 32-bit value that is
the same for any two ids with the same ordinal and thread id, and
`extract_in_epoch_ordinal` gives the ordinal back from it. -/
theorem C16_in_epoch_xct_order (x : XctId) :
    x.get_in_epoch_xct_order = x.get_ordinal * 2 ^ 16 + x.get_thread_id ∧
      x.get_in_epoch_xct_order < 2 ^ 32 ∧
      (∀ y : XctId, y.get_ordinal = x.get_ordinal → y.get_thread_id = x.get_thread_id →
        y.get_in_epoch_xct_order = x.get_in_epoch_xct_order) ∧
      extract_in_epoch_ordinal x.get_in_epoch_xct_order = x.get_ordinal := by
  refine ⟨?_, ?_, ?_, ?_⟩
  · rw [XctId.get_in_epoch_xct_order_eq, XctId.get_ordinal_eq, XctId.get_thread_id_eq]
    omega
  · rw [XctId.get_in_epoch_xct_order_eq]
    omega
  · intro y
    rw [XctId.get_in_epoch_xct_order_eq, XctId.get_ordinal_eq, XctId.get_thread_id_eq,
      XctId.get_in_epoch_xct_order_eq, XctId.get_ordinal_eq, XctId.get_thread_id_eq]
    omega
  · unfold extract_in_epoch_ordinal
    rw [XctId.get_in_epoch_xct_order_eq, XctId.get_ordinal_eq, Nat.shiftRight_eq_div_pow]
    omega

theorem C16_in_epoch_xct_order_witness :
    (XctId.mk (9 * 2 ^ 36 + 7 * 2 ^ 20 + 3 * 2 ^ 4 + 5)).get_in_epoch_xct_order
      = (XctId.mk (7 * 2 ^ 20 + 3 * 2 ^ 4)).get_in_epoch_xct_order :=
  (C16_in_epoch_xct_order ⟨7 * 2 ^ 20 + 3 * 2 ^ 4⟩).2.2.1 ⟨9 * 2 ^ 36 + 7 * 2 ^ 20 + 3 * 2 ^ 4 + 5⟩
    (by decide) (by decide)

/-! ## The batch lock -/

/-- The word at index `j` of `with_keylocks`. -/
theorem getElem?_with_keylocks (words : List XctId) (lo hi j : Nat) :
    (with_keylocks words lo hi)[j]? =
      (words[j]?).map (fun w => if lo ≤ j ∧ j < hi then ⟨w.data_ ||| kKeylockBit⟩ else w) := by
  unfold with_keylocks
  rw [List.getElem?_mapIdx]

theorem length_with_keylocks (words : List XctId) (lo hi : Nat) :
    (with_keylocks words lo hi).length = words.length := by
  unfold with_keylocks
  rw [List.length_mapIdx]

/-- Locking no word leaves the array as it is. -/
theorem with_keylocks_empty (words : List XctId) (lo : Nat) : with_keylocks words lo lo = words := by
  apply List.ext_getElem?
  intro j
  rw [getElem?_with_keylocks]
  have : ¬ (lo ≤ j ∧ j < lo) := by omega
  simp [this]

/-- Locking the word at index `hi` extends the locked range by one. -/
theorem with_keylocks_succ (words : List XctId) (lo hi : Nat) (x : XctId) (hlo : lo ≤ hi)
    (hx : words[hi]? = some x) :
    (with_keylocks words lo hi).set hi ⟨x.data_ ||| kKeylockBit⟩
      = with_keylocks words lo (hi + 1) := by
  have hlen : hi < words.length := by
    rcases List.getElem?_eq_some_iff.1 hx with ⟨h, _⟩
    exact h
  apply List.ext_getElem?
  intro j
  rw [List.getElem?_set, getElem?_with_keylocks, getElem?_with_keylocks, length_with_keylocks]
  by_cases hj : hi = j
  · subst hj
    have h1 : lo ≤ hi ∧ hi < hi + 1 := ⟨hlo, Nat.lt_succ_self hi⟩
    simp [hlen, hx, h1]
  · have h2 : (lo ≤ j ∧ j < hi + 1) ↔ (lo ≤ j ∧ j < hi) := by omega
    simp [hj, h2]

/-- A word of the array that lies at or behind the locked range is still the original word. -/
theorem with_keylocks_behind (words : List XctId) (lo hi j : Nat) (hj : hi ≤ j) :
    (with_keylocks words lo hi)[j]? = words[j]? := by
  rw [getElem?_with_keylocks]
  have : ¬ (lo ≤ j ∧ j < hi) := by omega
  simp [this]

/-- On two 64-bit words without the key-lock bit the 128-bit swap succeeds in its first
iteration. -/
theorem keylock_batch_spin_free (a b : XctId) (fuel : Nat) (ha : a.is_word)
    (hka : a.is_keylocked = false) (hb : b.is_word) (hkb : b.is_keylocked = false) :
    keylock_batch_spin (fuel + 1) a b
      = some (⟨a.data_ ||| kKeylockBit⟩, ⟨b.data_ ||| kKeylockBit⟩) := by
  have hka2 : ¬ (a.data_ / 2 ^ 3 % 2 = 1) := by
    rw [← XctId.is_keylocked_iff, hka]
    simp
  have hkb2 : ¬ (b.data_ / 2 ^ 3 % 2 = 1) := by
    rw [← XctId.is_keylocked_iff, hkb]
    simp
  have hea : a.data_ &&& not64 kKeylockBit = a.data_ := by
    rw [and_not64_kKeylockBit]
    unfold XctId.is_word at ha
    omega
  have heb : b.data_ &&& not64 kKeylockBit = b.data_ := by
    rw [and_not64_kKeylockBit]
    unfold XctId.is_word at hb
    omega
  simp [keylock_batch_spin, hea, heb, raw_atomic_compare_exchange_weak_uint128]

/-- The fallback loop started at index `i` on an array whose first `i` words are locked locks
the next `n` words. -/
theorem keylock_batch_singles_eq (words : List XctId) (fuel : Nat)
    (hfree : ∀ w ∈ words, w.is_word ∧ w.is_keylocked = false) :
    ∀ n i : Nat, i + n ≤ words.length →
      keylock_batch_singles (fuel + 1) n i (with_keylocks words 0 i)
        = some (with_keylocks words 0 (i + n)) := by
  intro n
  induction n with
  | zero =>
    intro i _
    simp [keylock_batch_singles]
  | succ n ih =>
    intro i hi
    have hlt : i < words.length := by omega
    have hx : words[i]? = some words[i] := List.getElem?_eq_getElem hlt
    have hf := hfree words[i] (List.getElem_mem hlt)
    unfold keylock_batch_singles
    rw [with_keylocks_behind words 0 i i (Nat.le_refl i), hx]
    simp only []
    rw [keylock_unconditional_free words[i] fuel hf.1 hf.2]
    simp only []
    rw [with_keylocks_succ words 0 i words[i] (Nat.zero_le i) hx, ih (i + 1) (by omega)]
    congr 2
    omega

/-- The pair loop started at pair `i` on an array whose first `2 * i` words are locked locks
the next `2 * n` words. -/
theorem keylock_batch_pairs_eq (words : List XctId) (fuel : Nat)
    (hfree : ∀ w ∈ words, w.is_word ∧ w.is_keylocked = false) :
    ∀ n i : Nat, i * 2 + n * 2 ≤ words.length →
      keylock_batch_pairs (fuel + 1) n i (with_keylocks words 0 (i * 2))
        = some (with_keylocks words 0 (i * 2 + n * 2)) := by
  intro n
  induction n with
  | zero =>
    intro i _
    simp [keylock_batch_pairs]
  | succ n ih =>
    intro i hi
    have hlt0 : i * 2 < words.length := by omega
    have hlt1 : i * 2 + 1 < words.length := by omega
    have hx0 : words[i * 2]? = some words[i * 2] := List.getElem?_eq_getElem hlt0
    have hx1 : words[i * 2 + 1]? = some words[i * 2 + 1] := List.getElem?_eq_getElem hlt1
    have hf0 := hfree words[i * 2] (List.getElem_mem hlt0)
    have hf1 := hfree words[i * 2 + 1] (List.getElem_mem hlt1)
    unfold keylock_batch_pairs
    rw [with_keylocks_behind words 0 (i * 2) (i * 2) (Nat.le_refl _),
      with_keylocks_behind words 0 (i * 2) (i * 2 + 1) (Nat.le_succ _), hx0, hx1]
    simp only []
    rw [keylock_batch_spin_free _ _ fuel hf0.1 hf0.2 hf1.1 hf1.2]
    simp only []
    rw [with_keylocks_succ words 0 (i * 2) words[i * 2] (Nat.zero_le _) hx0,
      with_keylocks_succ words 0 (i * 2 + 1) words[i * 2 + 1] (Nat.zero_le _) hx1]
    have h2 : i * 2 + 1 + 1 = (i + 1) * 2 := by omega
    rw [h2, ih (i + 1) (by omega)]
    congr 2
    omega

/-- Locking the first `count + 1` words of `x :: rest` locks `x` and the first `count` words of
`rest`. -/
theorem with_keylocks_cons (x : XctId) (rest : List XctId) (count : Nat) :
    with_keylocks (x :: rest) 0 (count + 1)
      = ⟨x.data_ ||| kKeylockBit⟩ :: with_keylocks rest 0 count := by
  apply List.ext_getElem?
  intro j
  rw [getElem?_with_keylocks]
  cases j with
  | zero => simp
  | succ j =>
    rw [List.getElem?_cons_succ, List.getElem?_cons_succ, getElem?_with_keylocks]
    simp

/-- Acquiring each of the first `count` words in turn locks exactly those words. -/
theorem keylock_each_in_turn_eq (fuel : Nat) :
    ∀ (words : List XctId) (count : Nat), count ≤ words.length →
      (∀ w ∈ words, w.is_word ∧ w.is_keylocked = false) →
      keylock_each_in_turn (fuel + 1) words count = some (with_keylocks words 0 count) := by
  intro words
  induction words with
  | nil =>
    intro count hc _
    have : count = 0 := by simpa using hc
    subst this
    simp [keylock_each_in_turn, with_keylocks_empty]
  | cons x rest ih =>
    intro count hc hfree
    cases count with
    | zero => simp [keylock_each_in_turn, with_keylocks_empty]
    | succ c =>
      have hx := hfree x (List.mem_cons_self x rest)
      have hrest : ∀ w ∈ rest, w.is_word ∧ w.is_keylocked = false :=
        fun w hw => hfree w (List.mem_cons_of_mem x hw)
      have hc2 : c ≤ rest.length := by simpa using hc
      unfold keylock_each_in_turn
      rw [keylock_unconditional_free x fuel hx.1 hx.2]
      simp only []
      rw [ih c hc2 hrest, with_keylocks_cons]

/-- The 128-bit path locks the first `count` words. -/
theorem keylock_unconditional_batch_cas128_eq (words : List XctId) (count fuel : Nat)
    (h16 : count < 2 ^ 16) (hcount : count ≤ words.length)
    (hfree : ∀ w ∈ words, w.is_word ∧ w.is_keylocked = false) :
    XctId.keylock_unconditional_batch true (fuel + 1) words count
      = some (with_keylocks words 0 count) := by
  have hp := keylock_batch_pairs_eq words fuel hfree (count / 2) 0 (by omega)
  rw [Nat.zero_mul, with_keylocks_empty, Nat.zero_add] at hp
  unfold XctId.keylock_unconditional_batch
  simp only [Nat.mod_eq_of_lt h16, if_true]
  rw [hp]
  simp only []
  by_cases hodd : count % 2 = 0
  · have he : count / 2 * 2 = count := by omega
    simp [hodd, he]
  · have he : count / 2 * 2 = count - 1 := by omega
    have hlt : count - 1 < words.length := by omega
    have hx : words[count - 1]? = some words[count - 1] := List.getElem?_eq_getElem hlt
    have hf := hfree words[count - 1] (List.getElem_mem hlt)
    have hne : (count % 2 != 0) = true := by simpa using hodd
    rw [he, if_pos hne, with_keylocks_behind words 0 (count - 1) (count - 1) (Nat.le_refl _), hx]
    simp only []
    rw [keylock_unconditional_free _ fuel hf.1 hf.2]
    simp only []
    rw [with_keylocks_succ words 0 (count - 1) _ (Nat.zero_le _) hx]
    congr 2
    omega

/-- The fallback path locks the first `count` words. -/
theorem keylock_unconditional_batch_fallback_eq (words : List XctId) (count fuel : Nat)
    (h16 : count < 2 ^ 16) (hcount : count ≤ words.length)
    (hfree : ∀ w ∈ words, w.is_word ∧ w.is_keylocked = false) :
    XctId.keylock_unconditional_batch false (fuel + 1) words count
      = some (with_keylocks words 0 count) := by
  have hs := keylock_batch_singles_eq words fuel hfree count 0 (by omega)
  rw [with_keylocks_empty, Nat.zero_add] at hs
  unfold XctId.keylock_unconditional_batch
  simp only [Nat.mod_eq_of_lt h16]
  simpa using hs

/-- The count is a `uint16_t`: a count of `2^16` more is the same call, so that with the count
`2^16` no word is locked. -/
theorem keylock_unconditional_batch_count_wraps (cas128 : Bool) (fuel : Nat)
    (aligned : List XctId) (count : Nat) :
    XctId.keylock_unconditional_batch cas128 fuel aligned (count + 2 ^ 16)
        = XctId.keylock_unconditional_batch cas128 fuel aligned count ∧
      XctId.keylock_unconditional_batch cas128 fuel aligned (2 ^ 16) = some aligned := by
  constructor
  · unfold XctId.keylock_unconditional_batch
    rw [Nat.add_mod_right]
  · cases cas128 <;>
      simp [XctId.keylock_unconditional_batch, keylock_batch_pairs, keylock_batch_singles]

/-- C11: for every array of 64-bit words whose key-lock bits are clear and every `uint16_t`
`count` up to the length of the array, even or odd, `keylock_unconditional_batch(array, count)`
returns, on the
128-bit path as on the fallback path, with exactly the words that `keylock_unconditional` on each
of the first `count` words in turn produces: each word of index below `count` is the old word
with the key-lock bit or-ed in (key-locked, every other bit unchanged) and each word of index
`count` or more is unchanged. -/
theorem C11_batch_lock_parity (words : List XctId) (count fuel : Nat)
    (h16 : count < 2 ^ 16) (hcount : count ≤ words.length)
    (hfree : ∀ w ∈ words, w.is_word ∧ w.is_keylocked = false) :
    XctId.keylock_unconditional_batch true (fuel + 1) words count
        = keylock_each_in_turn (fuel + 1) words count ∧
      XctId.keylock_unconditional_batch false (fuel + 1) words count
        = keylock_each_in_turn (fuel + 1) words count ∧
      keylock_each_in_turn (fuel + 1) words count = some (with_keylocks words 0 count) ∧
      (with_keylocks words 0 count).length = words.length ∧
      (∀ (j : Nat) (w : XctId), words[j]? = some w →
        (with_keylocks words 0 count)[j]?
          = some (if j < count then ⟨w.data_ ||| kKeylockBit⟩ else w)) ∧
      (∀ w : XctId, (XctId.mk (w.data_ ||| kKeylockBit)).is_keylocked = true ∧
        ∀ i : Nat, i ≠ 3 → (w.data_ ||| kKeylockBit).testBit i = w.data_.testBit i) := by
  have h1 := keylock_unconditional_batch_cas128_eq words count fuel h16 hcount hfree
  have h2 := keylock_unconditional_batch_fallback_eq words count fuel h16 hcount hfree
  have h3 := keylock_each_in_turn_eq fuel words count hcount hfree
  refine ⟨by rw [h1, h3], by rw [h2, h3], h3, length_with_keylocks words 0 count, ?_, ?_⟩
  · intro j w hw
    rw [getElem?_with_keylocks, hw]
    simp
  · intro w
    have h8 : kKeylockBit = 2 ^ 3 := by decide
    constructor
    · rw [XctId.is_keylocked_iff]
      have hor := or_kKeylockBit w.data_
      simp only []
      omega
    · intro i hi
      rw [Nat.testBit_or, h8, Nat.testBit_two_pow_of_ne (Ne.symm hi)]
      simp

theorem C11_batch_lock_parity_witness :
    XctId.keylock_unconditional_batch true 1
        [XctId.mk (5 * 2 ^ 36 + 1), XctId.mk (5 * 2 ^ 36 + 2 ^ 20), XctId.mk 6, XctId.mk 0] 3
      = keylock_each_in_turn 1
        [XctId.mk (5 * 2 ^ 36 + 1), XctId.mk (5 * 2 ^ 36 + 2 ^ 20), XctId.mk 6, XctId.mk 0] 3 :=
  (C11_batch_lock_parity
    [XctId.mk (5 * 2 ^ 36 + 1), XctId.mk (5 * 2 ^ 36 + 2 ^ 20), XctId.mk 6, XctId.mk 0] 3 0
    (by decide) (by decide) (by decide)).1

end xct

/-! ## memcpy -/

theorem length_memcpy (dst : List Nat) (dst_offset : Nat) (src : List Nat) (n : Nat) :
    (memcpy dst dst_offset src n).length = dst.length := by
  induction n with
  | zero => rfl
  | succ n ih => simp [memcpy, ih]

/-- The byte at index `j` after `memcpy`: inside the target range it is the source byte, outside
it is the old byte. -/
theorem getElem?_memcpy (dst : List Nat) (dst_offset : Nat) (src : List Nat) (n j : Nat) :
    (memcpy dst dst_offset src n)[j]? =
      if dst_offset ≤ j ∧ j < dst_offset + n
      then (dst[j]?).map (fun _ => src.getD (j - dst_offset) 0)
      else dst[j]? := by
  induction n with
  | zero =>
    have : ¬ (dst_offset ≤ j ∧ j < dst_offset) := by omega
    simp [memcpy, this]
  | succ n ih =>
    unfold memcpy
    rw [List.getElem?_set']
    by_cases hj : dst_offset + n = j
    · subst hj
      have h1 : ¬ (dst_offset ≤ dst_offset + n ∧ dst_offset + n < dst_offset + n) := by omega
      have h2 : dst_offset ≤ dst_offset + n ∧ dst_offset + n < dst_offset + (n + 1) := by omega
      rw [if_pos rfl, ih, if_neg h1, if_pos h2, Nat.add_sub_cancel_left]
      rfl
    · have h3 : (dst_offset ≤ j ∧ j < dst_offset + (n + 1)) ↔
          (dst_offset ≤ j ∧ j < dst_offset + n) := by omega
      rw [if_neg hj, ih]
      simp only [h3]

/-- With the target range inside `dst` and `n` bytes in `src`, `memcpy` is the old bytes before
the range, the first `n` source bytes, and the old bytes behind the range. -/
theorem memcpy_eq (dst : List Nat) (dst_offset : Nat) (src : List Nat) (n : Nat)
    (hdst : dst_offset + n ≤ dst.length) (hsrc : n ≤ src.length) :
    memcpy dst dst_offset src n
      = dst.take dst_offset ++ src.take n ++ dst.drop (dst_offset + n) := by
  apply List.ext_getElem?
  intro j
  rw [getElem?_memcpy]
  by_cases h1 : j < dst_offset
  · have hn : ¬ (dst_offset ≤ j ∧ j < dst_offset + n) := by omega
    rw [if_neg hn, List.append_assoc, List.getElem?_append_left (by simp; omega),
      List.getElem?_take_of_lt h1]
  · by_cases h2 : j < dst_offset + n
    · have hy : dst_offset ≤ j ∧ j < dst_offset + n := by omega
      have hjd : j < dst.length := by omega
      have hjs : j - dst_offset < src.length := by omega
      rw [if_pos hy, List.getElem?_append_left (by simp; omega),
        List.getElem?_append_right (by simp; omega)]
      simp only [List.length_take]
      have hmin : min dst_offset dst.length = dst_offset := by omega
      rw [hmin, List.getElem?_take_of_lt (by omega), List.getElem?_eq_getElem hjd,
        List.getElem?_eq_getElem hjs]
      simp [List.getD_eq_getElem?_getD, List.getElem?_eq_getElem hjs]
    · have hn : ¬ (dst_offset ≤ j ∧ j < dst_offset + n) := by omega
      rw [if_neg hn, List.getElem?_append_right (by simp; omega), List.getElem?_drop]
      simp only [List.length_append, List.length_take]
      have hmin1 : min dst_offset dst.length = dst_offset := by omega
      have hmin2 : min n src.length = n := by omega
      rw [hmin1, hmin2]
      congr 1
      omega

namespace storage
namespace array
namespace OverwriteLogType

/-! ## Claims about the overwrite log -/

/-- C17 (the claim as stated is false): for the 16-bit payload count 65535 the least multiple of
8 that is at least `24 + 65535` is 65560, which does not fit the 16-bit length: the length that
`calculate_log_length` returns and `populate` stores is 24, smaller than the fixed part plus the
payload. -/
theorem C17_log_length_wraps :
    (65535 : Nat) < 2 ^ 16 ∧ calculate_log_length 65535 = 24 ∧
      (∀ (self : OverwriteLogType) (log_code storage_id offset payload_offset : Nat)
          (payload : List Nat),
        (self.populate log_code storage_id offset payload payload_offset 65535).header_.log_length_
          = 24) ∧
      ¬ (24 + 65535 ≤ calculate_log_length 65535) := by
  refine ⟨by decide, by decide, ?_, by decide⟩
  intro self log_code storage_id offset payload_offset payload
  show calculate_log_length 65535 = 24
  decide

/-- C17 (amended): for every payload count up to 65504, that is whenever the aligned length
fits the 16-bit length field, `calculate_log_length(payload_count)`, which is also the header
`log_length_` that `populate` stores, is the least multiple of 8 that is at least
`24 + payload_count` (payload count 2 gives 32); for every 16-bit payload count it is that
number reduced modulo `2^16`, still a multiple of 8. -/
theorem C17_log_length_is_align8 (payload_count : Nat) (h16 : payload_count < 2 ^ 16) :
    (∀ (self : OverwriteLogType) (log_code storage_id offset payload_offset : Nat)
        (payload : List Nat),
      (self.populate log_code storage_id offset payload payload_offset payload_count).header_.log_length_
        = calculate_log_length payload_count) ∧
      calculate_log_length payload_count = assorted.align8 (24 + payload_count) % 2 ^ 16 ∧
      8 ∣ calculate_log_length payload_count ∧
      (payload_count ≤ 65504 →
        8 ∣ calculate_log_length payload_count ∧
          24 + payload_count ≤ calculate_log_length payload_count ∧
          ∀ m : Nat, 8 ∣ m → 24 + payload_count ≤ m → calculate_log_length payload_count ≤ m) ∧
      calculate_log_length 2 = 32 := by
  have hm : payload_count % 2 ^ 16 = payload_count := Nat.mod_eq_of_lt h16
  refine ⟨fun _ _ _ _ _ _ => rfl, ?_, ?_, ?_, by decide⟩
  · unfold calculate_log_length
    rw [hm]
  · unfold calculate_log_length assorted.align8
    rw [hm]
    omega
  · intro hle
    unfold calculate_log_length assorted.align8
    rw [hm]
    refine ⟨by omega, by omega, ?_⟩
    intro m hm8 hge
    omega

theorem C17_log_length_is_align8_witness :
    8 ∣ calculate_log_length 5 ∧ 24 + 5 ≤ calculate_log_length 5 ∧
      ∀ m : Nat, 8 ∣ m → 24 + 5 ≤ m → calculate_log_length 5 ≤ m :=
  (C17_log_length_is_align8 5 (by decide)).2.2.2.1 (by decide)

/-- C18: `populate` round-trips its arguments.  For a storage id below `2^32`, an array offset
below `2^64`, a 16-bit payload offset and count, and a payload of `payload_count` bytes for which
the log buffer has room, the header fields `storage_id_`, `offset_`, `payload_offset_` and
`payload_count_` read back equal to the arguments, the type code is the overwrite code, the
inline bytes `payload_[0 .. payload_count)` are the bytes of the caller, the bytes behind them
are untouched, and `xct_order_` is untouched. -/
theorem C18_populate_round_trip (self : OverwriteLogType)
    (log_code storage_id offset payload_offset payload_count : Nat) (payload : List Nat)
    (hs : storage_id < 2 ^ 32) (ho : offset < 2 ^ 64) (hpo : payload_offset < 2 ^ 16)
    (hpc : payload_count < 2 ^ 16) (hlen : payload.length = payload_count)
    (hroom : payload_count ≤ self.payload_.length) :
    (self.populate log_code storage_id offset payload payload_offset payload_count).header_.storage_id_
        = storage_id ∧
      (self.populate log_code storage_id offset payload payload_offset payload_count).offset_
        = offset ∧
      (self.populate log_code storage_id offset payload payload_offset payload_count).payload_offset_
        = payload_offset ∧
      (self.populate log_code storage_id offset payload payload_offset payload_count).payload_count_
        = payload_count ∧
      (self.populate log_code storage_id offset payload payload_offset payload_count).header_.log_type_code_
        = log_code ∧
      (self.populate log_code storage_id offset payload payload_offset payload_count).payload_.take
          payload_count = payload ∧
      (self.populate log_code storage_id offset payload payload_offset payload_count).payload_.drop
          payload_count = self.payload_.drop payload_count ∧
      (self.populate log_code storage_id offset payload payload_offset payload_count).xct_order_
        = self.xct_order_ := by
  have hm : payload_count % 2 ^ 16 = payload_count := Nat.mod_eq_of_lt hpc
  have hp : (self.populate log_code storage_id offset payload payload_offset payload_count).payload_
      = payload ++ self.payload_.drop payload_count := by
    show memcpy self.payload_ 0 payload (payload_count % 2 ^ 16) = _
    rw [hm, memcpy_eq self.payload_ 0 payload payload_count (by omega) (by omega)]
    simp [← hlen]
  refine ⟨Nat.mod_eq_of_lt hs, Nat.mod_eq_of_lt ho, Nat.mod_eq_of_lt hpo, hm, rfl, ?_, ?_, rfl⟩
  · rw [hp, ← hlen]
    simp
  · rw [hp, ← hlen]
    simp

theorem C18_populate_round_trip_witness :
    ((OverwriteLogType.mk ⟨0, 0, 0⟩ 0 77 0 0 [1, 2, 3, 4, 5, 6, 7, 8]).populate 34 9 12
        [0xAB, 0xCD] 3 2).payload_.take 2 = [0xAB, 0xCD] ∧
      ((OverwriteLogType.mk ⟨0, 0, 0⟩ 0 77 0 0 [1, 2, 3, 4, 5, 6, 7, 8]).populate 34 9 12
        [0xAB, 0xCD] 3 2).xct_order_ = 77 :=
  ⟨(C18_populate_round_trip ⟨⟨0, 0, 0⟩, 0, 77, 0, 0, [1, 2, 3, 4, 5, 6, 7, 8]⟩ 34 9 12 3 2
      [0xAB, 0xCD] (by decide) (by decide) (by decide) (by decide) (by decide)
      (by decide)).2.2.2.2.2.1,
    (C18_populate_round_trip ⟨⟨0, 0, 0⟩, 0, 77, 0, 0, [1, 2, 3, 4, 5, 6, 7, 8]⟩ 34 9 12 3 2
      [0xAB, 0xCD] (by decide) (by decide) (by decide) (by decide) (by decide)
      (by decide)).2.2.2.2.2.2.2⟩

/-- C19: when `payload_offset_ + payload_count_` lies within the payload of the record (and the
log holds its `payload_count_` bytes), after `apply_record` the record payload is the old payload
with the bytes `[payload_offset_, payload_offset_ + payload_count_)` replaced by the bytes
`payload_[0 .. payload_count_)` of the log, every byte outside that range unchanged.  Scenario 1:
on a zero payload, offset 3 and the bytes `[0xAB, 0xCD]` give `[0xAB, 0xCD]` at 3 and 4 and zeros
elsewhere. -/
theorem C19_apply_record_overwrites_target_range (self : OverwriteLogType) (xct_id : xct.XctId)
    (record : Record)
    (hrange : self.payload_offset_ + self.payload_count_ ≤ record.payload_.length)
    (hlog : self.payload_count_ ≤ self.payload_.length) :
    (self.apply_record xct_id record).2.payload_
        = record.payload_.take self.payload_offset_ ++ self.payload_.take self.payload_count_
          ++ record.payload_.drop (self.payload_offset_ + self.payload_count_) ∧
      (self.apply_record xct_id record).2.payload_.length = record.payload_.length ∧
      (∀ j : Nat, self.payload_offset_ ≤ j → j < self.payload_offset_ + self.payload_count_ →
        (self.apply_record xct_id record).2.payload_[j]? = self.payload_[j - self.payload_offset_]?) ∧
      (∀ j : Nat, ¬ (self.payload_offset_ ≤ j ∧ j < self.payload_offset_ + self.payload_count_) →
        (self.apply_record xct_id record).2.payload_[j]? = record.payload_[j]?) ∧
      (∀ (log_code storage_id offset : Nat) (blank : OverwriteLogType) (owner : xct.XctId),
        blank.payload_ = List.replicate 8 0 →
        ((blank.populate log_code storage_id offset [0xAB, 0xCD] 3 2).apply_record xct_id
          ⟨owner, List.replicate 8 0⟩).2.payload_ = [0, 0, 0, 0xAB, 0xCD, 0, 0, 0]) := by
  have hp : (self.apply_record xct_id record).2.payload_
      = memcpy record.payload_ self.payload_offset_ self.payload_ self.payload_count_ := rfl
  refine ⟨?_, ?_, ?_, ?_, ?_⟩
  · rw [hp]
    exact memcpy_eq _ _ _ _ hrange hlog
  · rw [hp, length_memcpy]
  · intro j h1 h2
    have hjd : j < record.payload_.length := by omega
    have hjs : j - self.payload_offset_ < self.payload_.length := by omega
    rw [hp, getElem?_memcpy, if_pos ⟨h1, h2⟩, List.getElem?_eq_getElem hjd,
      List.getElem?_eq_getElem hjs]
    simp [List.getD_eq_getElem?_getD, List.getElem?_eq_getElem hjs]
  · intro j hj
    rw [hp, getElem?_memcpy, if_neg hj]
  · intro log_code storage_id offset blank owner hblank
    show memcpy (List.replicate 8 0) (3 % 2 ^ 16)
      (memcpy blank.payload_ 0 [0xAB, 0xCD] (2 % 2 ^ 16)) (2 % 2 ^ 16) = _
    rw [hblank]
    decide

theorem C19_apply_record_overwrites_target_range_witness :
    ((OverwriteLogType.mk ⟨0, 0, 0⟩ 0 0 3 2 [0xAB, 0xCD, 0, 0, 0, 0, 0, 0]).apply_record
        (xct.XctId.mk (5 * 2 ^ 36 + 2 ^ 20)) ⟨xct.XctId.mk 8, [9, 9, 9, 9, 9, 9]⟩).2.payload_.length
      = 6 :=
  (C19_apply_record_overwrites_target_range ⟨⟨0, 0, 0⟩, 0, 0, 3, 2, [0xAB, 0xCD, 0, 0, 0, 0, 0, 0]⟩
    (xct.XctId.mk (5 * 2 ^ 36 + 2 ^ 20)) ⟨xct.XctId.mk 8, [9, 9, 9, 9, 9, 9]⟩
    (by decide) (by decide)).2.1

/-- C20: after `apply_record` the owner word of the record is the commit id `xct_id` in all 64
bits, so that with a status-clean `xct_id` the owner is no longer key-locked without any separate
release, and the `xct_order_` of the log is `xct_id.get_in_epoch_xct_order()`.  This holds for
every record and commit id, in particular for every key-locked record whose owner is before
`xct_id`.  Scenario 1: the key-locked record with invalid owner ends with the owner
(epoch 5, ordinal 1, thread 0, status 0). -/
theorem C20_apply_record_publishes_commit_tid (self : OverwriteLogType) (xct_id : xct.XctId)
    (record : Record) :
    (self.apply_record xct_id record).2.owner_id_ = xct_id ∧
      (self.apply_record xct_id record).2.owner_id_.data_ = xct_id.data_ ∧
      (xct_id.is_status_bits_off = true →
        (self.apply_record xct_id record).2.owner_id_.is_keylocked = false) ∧
      (self.apply_record xct_id record).1.xct_order_ = xct_id.get_in_epoch_xct_order ∧
      (∀ payload : List Nat,
        (xct.XctId.mk xct.kKeylockBit).is_keylocked = true ∧
          (xct.XctId.mk xct.kKeylockBit).before ((xct.XctId.mk 0).set_clean 5 1 0) = true ∧
          (self.apply_record ((xct.XctId.mk 0).set_clean 5 1 0)
            ⟨xct.XctId.mk xct.kKeylockBit, payload⟩).2.owner_id_
              = xct.XctId.mk (5 * 2 ^ 36 + 1 * 2 ^ 20) ∧
          (xct.XctId.mk (5 * 2 ^ 36 + 1 * 2 ^ 20)).get_epoch_int = 5 ∧
          (xct.XctId.mk (5 * 2 ^ 36 + 1 * 2 ^ 20)).get_ordinal = 1 ∧
          (xct.XctId.mk (5 * 2 ^ 36 + 1 * 2 ^ 20)).get_thread_id = 0 ∧
          (xct.XctId.mk (5 * 2 ^ 36 + 1 * 2 ^ 20)).is_status_bits_off = true ∧
          (xct.XctId.mk (5 * 2 ^ 36 + 1 * 2 ^ 20)).is_keylocked = false) := by
  refine ⟨rfl, rfl, ?_, rfl, ?_⟩
  · intro hoff
    show xct.XctId.is_keylocked ⟨xct_id.data_⟩ = false
    unfold xct.XctId.is_status_bits_off at hoff
    simp only [Bool.and_eq_true, Bool.not_eq_true_eq_eq_false, Bool.not_eq_eq_eq_not,
      Bool.not_true] at hoff
    exact hoff.1.1.2
  · intro payload
    refine ⟨by decide, by decide, ?_, by decide, by decide, by decide, by decide, by decide⟩
    show xct.XctId.mk ((xct.XctId.mk 0).set_clean 5 1 0).data_ = _
    decide

theorem C20_apply_record_publishes_commit_tid_witness :
    ((OverwriteLogType.mk ⟨0, 0, 0⟩ 0 0 3 2 [0xAB, 0xCD]).apply_record
        (xct.XctId.mk (5 * 2 ^ 36 + 2 ^ 20))
        ⟨xct.XctId.mk (4 * 2 ^ 36 + 8), [0, 0, 0, 0, 0, 0]⟩).2.owner_id_.is_keylocked = false :=
  (C20_apply_record_publishes_commit_tid ⟨⟨0, 0, 0⟩, 0, 0, 3, 2, [0xAB, 0xCD]⟩
    (xct.XctId.mk (5 * 2 ^ 36 + 2 ^ 20)) ⟨xct.XctId.mk (4 * 2 ^ 36 + 8), [0, 0, 0, 0, 0, 0]⟩).2.2.1
    (by decide)

end OverwriteLogType
end array
end storage

namespace xct

/-! ## The field setters -/

/-- Or-ing a value into a field of zero bits between a high part and a low part adds it. -/
theorem or_into_hole (hi lo v k j : Nat) (hlo : lo < 2 ^ j) (hv : v * 2 ^ j + lo < 2 ^ k) :
    (hi * 2 ^ k + lo) ||| v * 2 ^ j = hi * 2 ^ k + v * 2 ^ j + lo := by
  have hlok : lo < 2 ^ k := by omega
  have h1 : hi * 2 ^ k + lo = 2 ^ k * hi ||| lo := by
    rw [Nat.mul_comm]
    exact Nat.mul_add_lt_is_or hlok hi
  have h2 : v * 2 ^ j + lo = v * 2 ^ j ||| lo := by
    rw [Nat.mul_comm v (2 ^ j)]
    exact Nat.mul_add_lt_is_or hlo v
  have h3 : 2 ^ k * hi + (v * 2 ^ j + lo) = 2 ^ k * hi ||| (v * 2 ^ j + lo) :=
    Nat.mul_add_lt_is_or hv hi
  calc (hi * 2 ^ k + lo) ||| v * 2 ^ j
      = (2 ^ k * hi ||| lo) ||| v * 2 ^ j := by rw [h1]
    _ = 2 ^ k * hi ||| (v * 2 ^ j ||| lo) := by rw [Nat.or_assoc, Nat.or_comm lo]
    _ = 2 ^ k * hi ||| (v * 2 ^ j + lo) := by rw [← h2]
    _ = 2 ^ k * hi + (v * 2 ^ j + lo) := h3.symm
    _ = hi * 2 ^ k + v * 2 ^ j + lo := by rw [Nat.mul_comm (2 ^ k) hi, Nat.add_assoc]

/-- The word after `set_epoch_int` with an epoch in range. -/
theorem set_epoch_int_data (x : XctId) (e : Nat) (he : e < 2 ^ 28) :
    (x.set_epoch_int e).data_ = e * 2 ^ 36 + x.data_ % 2 ^ 36 := by
  unfold XctId.set_epoch_int kShiftEpoch
  have h1 : e % 2 ^ 32 = e := Nat.mod_eq_of_lt (by omega)
  have h2 : (e <<< 36) % 2 ^ 64 = 2 ^ 36 * e := by
    rw [Nat.shiftLeft_eq, Nat.mul_comm]
    exact Nat.mod_eq_of_lt (by omega)
  have h3 : kUnmaskEpoch = 2 ^ 36 - 1 := by decide
  have h4 : x.data_ % 2 ^ 36 < 2 ^ 36 := Nat.mod_lt _ (by decide)
  simp only [h1, h2, h3]
  rw [Nat.and_pow_two_sub_one_eq_mod, Nat.or_comm, ← Nat.mul_add_lt_is_or h4]
  omega

/-- The word after `set_ordinal` with a 16-bit ordinal. -/
theorem set_ordinal_data (x : XctId) (o : Nat) (ho : o < 2 ^ 16) :
    (x.set_ordinal o).data_
      = x.data_ / 2 ^ 36 % 2 ^ 28 * 2 ^ 36 + o * 2 ^ 20 + x.data_ % 2 ^ 20 := by
  unfold XctId.set_ordinal kShiftOrdinal
  have h1 : o % 2 ^ 16 = o := Nat.mod_eq_of_lt ho
  have h3 : kUnmaskOrdinal = (2 ^ 28 - 1) * 2 ^ 36 ||| (2 ^ 20 - 1) := by decide
  have h4 : x.data_ % 2 ^ 20 < 2 ^ 20 := Nat.mod_lt _ (by decide)
  simp only [h1, h3]
  rw [and_field_or_low x.data_ 36 28 20 (by decide), Nat.shiftLeft_eq,
    or_into_hole _ _ o 36 20 h4 (by omega)]

/-- The word after `set_thread_id` with a 16-bit thread id. -/
theorem set_thread_id_data (x : XctId) (t : Nat) (ht : t < 2 ^ 16) :
    (x.set_thread_id t).data_
      = x.data_ / 2 ^ 20 % 2 ^ 44 * 2 ^ 20 + t * 2 ^ 4 + x.data_ % 2 ^ 4 := by
  unfold XctId.set_thread_id kShiftThreadId
  have h1 : t % 2 ^ 16 = t := Nat.mod_eq_of_lt ht
  have h3 : kUnmaskThreadId = (2 ^ 44 - 1) * 2 ^ 20 ||| (2 ^ 4 - 1) := by decide
  have h4 : x.data_ % 2 ^ 4 < 2 ^ 4 := Nat.mod_lt _ (by decide)
  simp only [h1, h3]
  rw [and_field_or_low x.data_ 20 44 4 (by decide), Nat.shiftLeft_eq,
    or_into_hole _ _ t 20 4 h4 (by omega)]

/-- Two words with the same low four bits have the same four status bits. -/
theorem status_bits_eq_of_mod (a b : XctId) (h : a.data_ % 2 ^ 4 = b.data_ % 2 ^ 4) :
    a.is_keylocked = b.is_keylocked ∧ a.is_rangelocked = b.is_rangelocked ∧
      a.is_deleted = b.is_deleted ∧ a.is_moved = b.is_moved := by
  refine ⟨?_, ?_, ?_, ?_⟩
  · rw [Bool.eq_iff_iff, XctId.is_keylocked_iff, XctId.is_keylocked_iff]
    omega
  · rw [Bool.eq_iff_iff, XctId.is_rangelocked_iff, XctId.is_rangelocked_iff]
    omega
  · rw [Bool.eq_iff_iff, XctId.is_deleted_iff, XctId.is_deleted_iff]
    omega
  · rw [Bool.eq_iff_iff, XctId.is_moved_iff, XctId.is_moved_iff]
    omega

/-- C24: each field setter changes only its own field.  On every 64-bit word, `set_ordinal(o)`
with a 16-bit `o` gives `get_ordinal() == o` and leaves the epoch, the thread id and the four
status bits as they were; `set_epoch_int(e)` with `e < 2^28` changes only the epoch and
`set_thread_id(t)` with a 16-bit `t` only the thread id; and each `kUnmask` constant is the
64-bit complement of the corresponding mask. -/
theorem C24_setters_change_only_their_field (x : XctId) (hw : x.is_word) :
    (∀ o : Nat, o < 2 ^ 16 →
        (x.set_ordinal o).get_ordinal = o ∧
          (x.set_ordinal o).get_epoch_int = x.get_epoch_int ∧
          (x.set_ordinal o).get_thread_id = x.get_thread_id ∧
          (x.set_ordinal o).is_keylocked = x.is_keylocked ∧
          (x.set_ordinal o).is_rangelocked = x.is_rangelocked ∧
          (x.set_ordinal o).is_deleted = x.is_deleted ∧
          (x.set_ordinal o).is_moved = x.is_moved ∧
          (x.set_ordinal o).is_word) ∧
      (∀ e : Nat, e < 2 ^ 28 →
        (x.set_epoch_int e).get_epoch_int = e ∧
          (x.set_epoch_int e).get_ordinal = x.get_ordinal ∧
          (x.set_epoch_int e).get_thread_id = x.get_thread_id ∧
          (x.set_epoch_int e).is_keylocked = x.is_keylocked ∧
          (x.set_epoch_int e).is_rangelocked = x.is_rangelocked ∧
          (x.set_epoch_int e).is_deleted = x.is_deleted ∧
          (x.set_epoch_int e).is_moved = x.is_moved ∧
          (x.set_epoch_int e).is_word) ∧
      (∀ t : Nat, t < 2 ^ 16 →
        (x.set_thread_id t).get_thread_id = t ∧
          (x.set_thread_id t).get_epoch_int = x.get_epoch_int ∧
          (x.set_thread_id t).get_ordinal = x.get_ordinal ∧
          (x.set_thread_id t).is_keylocked = x.is_keylocked ∧
          (x.set_thread_id t).is_rangelocked = x.is_rangelocked ∧
          (x.set_thread_id t).is_deleted = x.is_deleted ∧
          (x.set_thread_id t).is_moved = x.is_moved ∧
          (x.set_thread_id t).is_word) ∧
      (kUnmaskEpoch = not64 kMaskEpoch ∧ kUnmaskOrdinal = not64 kMaskOrdinal ∧
        kUnmaskThreadId = not64 kMaskThreadId ∧ kUnmaskRangelock = not64 kRangelockBit ∧
        kUnmaskDelete = not64 kDeleteBit ∧ kUnmaskMoved = not64 kMovedBit ∧
        kUnmaskStatusBits = not64 (kKeylockBit ||| kRangelockBit ||| kDeleteBit ||| kMovedBit) ∧
        (∀ y : Nat, y < 2 ^ 64 → y &&& not64 y = 0 ∧ y ||| not64 y = 2 ^ 64 - 1)) := by
  unfold XctId.is_word at hw
  refine ⟨?_, ?_, ?_, ?_⟩
  · intro o ho
    have hd := set_ordinal_data x o ho
    have hs := status_bits_eq_of_mod (x.set_ordinal o) x (by rw [hd]; omega)
    refine ⟨?_, ?_, ?_, hs.1, hs.2.1, hs.2.2.1, hs.2.2.2, ?_⟩
    · rw [XctId.get_ordinal_eq, hd]; omega
    · rw [XctId.get_epoch_int_eq, XctId.get_epoch_int_eq, hd]; omega
    · rw [XctId.get_thread_id_eq, XctId.get_thread_id_eq, hd]; omega
    · unfold XctId.is_word; rw [hd]; omega
  · intro e he
    have hd := set_epoch_int_data x e he
    have hs := status_bits_eq_of_mod (x.set_epoch_int e) x (by rw [hd]; omega)
    refine ⟨?_, ?_, ?_, hs.1, hs.2.1, hs.2.2.1, hs.2.2.2, ?_⟩
    · rw [XctId.get_epoch_int_eq, hd]; omega
    · rw [XctId.get_ordinal_eq, XctId.get_ordinal_eq, hd]; omega
    · rw [XctId.get_thread_id_eq, XctId.get_thread_id_eq, hd]; omega
    · unfold XctId.is_word; rw [hd]; omega
  · intro t ht
    have hd := set_thread_id_data x t ht
    have hs := status_bits_eq_of_mod (x.set_thread_id t) x (by rw [hd]; omega)
    refine ⟨?_, ?_, ?_, hs.1, hs.2.1, hs.2.2.1, hs.2.2.2, ?_⟩
    · rw [XctId.get_thread_id_eq, hd]; omega
    · rw [XctId.get_epoch_int_eq, XctId.get_epoch_int_eq, hd]; omega
    · rw [XctId.get_ordinal_eq, XctId.get_ordinal_eq, hd]; omega
    · unfold XctId.is_word; rw [hd]; omega
  · refine ⟨by decide, by decide, by decide, by decide, by decide, by decide, by decide, ?_⟩
    intro y hy
    have hn : not64 y = 2 ^ 64 - (y + 1) := by
      unfold not64
      rw [Nat.mod_eq_of_lt hy]
      omega
    constructor
    · apply Nat.eq_of_testBit_eq
      intro i
      rw [Nat.testBit_and, hn, Nat.testBit_two_pow_sub_succ hy, Nat.zero_testBit]
      cases y.testBit i <;> simp
    · apply Nat.eq_of_testBit_eq
      intro i
      rw [Nat.testBit_or, hn, Nat.testBit_two_pow_sub_succ hy, Nat.testBit_two_pow_sub_one]
      by_cases hi : i < 64
      · cases y.testBit i <;> simp [hi]
      · have hlt : y < 2 ^ i :=
          lt_of_lt_of_le hy (Nat.pow_le_pow_right (by decide) (by omega))
        simp [hi, Nat.testBit_lt_two_pow hlt]

theorem C24_setters_change_only_their_field_witness :
    ((XctId.mk 0xFFFFFFFFFFFFFFFF).set_ordinal 7).get_ordinal = 7 ∧
      ((XctId.mk 0xFFFFFFFFFFFFFFFF).set_ordinal 7).get_epoch_int
        = (XctId.mk 0xFFFFFFFFFFFFFFFF).get_epoch_int ∧
      ((XctId.mk 0xFFFFFFFFFFFFFFFF).set_epoch_int 5).get_thread_id
        = (XctId.mk 0xFFFFFFFFFFFFFFFF).get_thread_id :=
  ⟨((C24_setters_change_only_their_field ⟨0xFFFFFFFFFFFFFFFF⟩ (by decide)).1 7 (by decide)).1,
    ((C24_setters_change_only_their_field ⟨0xFFFFFFFFFFFFFFFF⟩ (by decide)).1 7 (by decide)).2.1,
    ((C24_setters_change_only_their_field ⟨0xFFFFFFFFFFFFFFFF⟩ (by decide)).2.1 5
      (by decide)).2.2.1⟩

end xct

namespace storage
namespace array
namespace OverwriteLogType

/-! ## The primitive populate -/

theorem length_object_bytes (size : Nat) : ∀ value : Nat, (object_bytes size value).length = size := by
  induction size with
  | zero =>
    intro value
    rfl
  | succ n ih =>
    intro value
    simp [object_bytes, ih]

/-- Storing a primitive is copying its object representation. -/
theorem store_primitive_eq_memcpy (mem : List Nat) (size value : Nat) (hroom : size ≤ mem.length) :
    store_primitive mem size value = memcpy mem 0 (object_bytes size value) size := by
  rw [memcpy_eq mem 0 (object_bytes size value) size (by omega)
    (Nat.le_of_eq (length_object_bytes size value).symm)]
  unfold store_primitive
  have h : (object_bytes size value).take size = object_bytes size value := by
    apply List.take_of_length_le
    exact Nat.le_of_eq (length_object_bytes size value)
  simp [h]

/-- C25: for a primitive type `T` of size 1, 2, 4 or 8 bytes and every value of it,
`populate_primitive(storage_id, offset, v, payload_offset)` produces the same log record as
`populate(storage_id, offset, bytes of v in memory order, payload_offset, sizeof(T))`: the same
type code, `log_length_`, `storage_id_`, `offset_`, `payload_offset_`, `payload_count_`
(which is `sizeof(T)`) and inline payload, whose first `sizeof(T)` bytes are the bytes of `v`.
The inline buffer `payload_` is declared with 8 bytes, so the value fits. -/
theorem C25_populate_primitive_agrees (self : OverwriteLogType)
    (log_code storage_id offset sizeof_T v payload_offset : Nat)
    (hsize : sizeof_T ∈ [1, 2, 4, 8]) (hroom : 8 ≤ self.payload_.length) :
    self.populate_primitive log_code storage_id offset sizeof_T v payload_offset
        = self.populate log_code storage_id offset (object_bytes sizeof_T v) payload_offset
          sizeof_T ∧
      (self.populate_primitive log_code storage_id offset sizeof_T v payload_offset).payload_count_
        = sizeof_T ∧
      (self.populate_primitive log_code storage_id offset sizeof_T v payload_offset).payload_.take
        sizeof_T = object_bytes sizeof_T v ∧
      (self.populate_primitive log_code storage_id offset sizeof_T v payload_offset).header_.log_length_
        = calculate_log_length sizeof_T := by
  have h8 : sizeof_T ≤ 8 := by
    simp only [List.mem_cons, List.mem_singleton, List.not_mem_nil, or_false] at hsize
    omega
  have hm : sizeof_T % 2 ^ 16 = sizeof_T := Nat.mod_eq_of_lt (by omega)
  have hst := store_primitive_eq_memcpy self.payload_ sizeof_T v (by omega)
  refine ⟨?_, hm, ?_, rfl⟩
  · unfold populate_primitive populate
    rw [hm, hst]
  · show (store_primitive self.payload_ sizeof_T v).take sizeof_T = _
    unfold store_primitive
    have hl := length_object_bytes sizeof_T v
    rw [List.take_append_of_le_length (by omega)]
    exact List.take_of_length_le (by omega)

theorem C25_populate_primitive_agrees_witness :
    (OverwriteLogType.mk ⟨0, 0, 0⟩ 0 77 0 0 [1, 2, 3, 4, 5, 6, 7, 8]).populate_primitive 34 9 12 4
        0xDDCCBBAA 3
      = (OverwriteLogType.mk ⟨0, 0, 0⟩ 0 77 0 0 [1, 2, 3, 4, 5, 6, 7, 8]).populate 34 9 12
        (object_bytes 4 0xDDCCBBAA) 3 4 :=
  (C25_populate_primitive_agrees ⟨⟨0, 0, 0⟩, 0, 77, 0, 0, [1, 2, 3, 4, 5, 6, 7, 8]⟩ 34 9 12 4
    0xDDCCBBAA 3 (by decide) (by decide)).1

end OverwriteLogType
end array
end storage

namespace thread
namespace ThreadPimpl

/-! ## Claims about the worker thread -/

/-- On a null pending slot `try_impersonate` succeeds. -/
theorem try_impersonate_idle (self : ThreadPimpl) (session : ImpersonateSession)
    (hidle : self.current_task_ = none) :
    self.try_impersonate session
      = (true, { self with current_task_ := session.task_, raw_thread_ := self.raw_thread_.wakeup },
          { session with thread_ := some self.holder_ }) := by
  simp [try_impersonate, compare_exchange_strong, hidle]

/-- On a non-null pending slot `try_impersonate` fails and leaves the worker as it is. -/
theorem try_impersonate_busy (self : ThreadPimpl) (session : ImpersonateSession)
    (hbusy : self.current_task_ ≠ none) :
    self.try_impersonate session = (false, self, { session with thread_ := none }) := by
  simp [try_impersonate, compare_exchange_strong, hbusy]

/-- C21: `try_impersonate` succeeds exactly when the pending slot of the worker is null.  With a
null slot it returns true, the slot becomes the task of the session and the session is bound to
this worker (which is woken up); with a non-null slot it returns false, the worker with its slot
is unchanged and the worker field of the session is null. -/
theorem C21_try_impersonate_iff_slot_null (self : ThreadPimpl) (session : ImpersonateSession) :
    (self.current_task_ = none →
        (self.try_impersonate session).1 = true ∧
          (self.try_impersonate session).2.1.current_task_ = session.task_ ∧
          (self.try_impersonate session).2.2.thread_ = some self.holder_ ∧
          (self.try_impersonate session).2.2.task_ = session.task_ ∧
          (self.try_impersonate session).2.1.raw_thread_.wakeups_
            = self.raw_thread_.wakeups_ + 1) ∧
      (self.current_task_ ≠ none →
        (self.try_impersonate session).1 = false ∧
          (self.try_impersonate session).2.1 = self ∧
          (self.try_impersonate session).2.2.thread_ = none ∧
          (self.try_impersonate session).2.2.task_ = session.task_) ∧
      ((self.try_impersonate session).1 = true ↔ self.current_task_ = none) := by
  refine ⟨?_, ?_, ?_⟩
  · intro hidle
    rw [try_impersonate_idle self session hidle]
    exact ⟨rfl, rfl, rfl, rfl, rfl⟩
  · intro hbusy
    rw [try_impersonate_busy self session hbusy]
    exact ⟨rfl, rfl, rfl, rfl⟩
  · by_cases h : self.current_task_ = none
    · rw [try_impersonate_idle self session h]
      simp [h]
    · rw [try_impersonate_busy self session h]
      simp [h]

theorem C21_try_impersonate_iff_slot_null_witness :
    ((ThreadPimpl.mk 100 3 none ⟨false, 0⟩).try_impersonate ⟨none, some 7⟩).1 = true ∧
      ((ThreadPimpl.mk 100 3 (some 5) ⟨false, 0⟩).try_impersonate ⟨some 1, some 7⟩).2.2.thread_
        = none :=
  ⟨((C21_try_impersonate_iff_slot_null ⟨100, 3, none, ⟨false, 0⟩⟩ ⟨none, some 7⟩).1 rfl).1,
    ((C21_try_impersonate_iff_slot_null ⟨100, 3, some 5, ⟨false, 0⟩⟩ ⟨some 1, some 7⟩).2.1
      (by decide)).2.2.1⟩

/-- The drain loop on a worker that holds a task and is not asked to stop: the task is run once
with the worker as context, the slot is cleared, the result is set, and the loop is left on the
null slot. -/
theorem handle_tasks_drain_one_task (run : Nat → Nat → Nat) (self : ThreadPimpl)
    (world : TaskWorld) (task fuel : Nat) (htask : self.current_task_ = some task)
    (hrun : self.raw_thread_.is_stop_requested = false) :
    handle_tasks_drain run (fuel + 2) self world
      = some (DrainExit.null_task, { self with current_task_ := none },
          { runs_ := world.runs_ ++ [(task, self.holder_)]
            results_ := world.results_ ++ [(task, run task self.holder_)] }) := by
  simp [handle_tasks_drain, htask, hrun]

/-- C22 (amended): worker handoff returns the worker to the idle state.  For every idle worker
that is not asked to stop and every session with a non-null task, `try_impersonate` succeeds, and the drain
loop of `handle_tasks` that follows returns (with any fuel of at least 2) after running the task
exactly once with the worker as context and setting the value that `run` returned as the result
of the task; the pending slot is null again, the loop was left on the null slot, and a subsequent
`try_impersonate` on the worker returns true. -/
theorem C22_worker_handoff (run : Nat → Nat → Nat) (self : ThreadPimpl)
    (session : ImpersonateSession) (world : TaskWorld) (task fuel : Nat)
    (hidle : self.current_task_ = none)
    (hrun : self.raw_thread_.is_stop_requested = false)
    (htask : session.task_ = some task) :
    (self.try_impersonate session).1 = true ∧
      (self.try_impersonate session).2.1.current_task_ = some task ∧
      handle_tasks_drain run (fuel + 2) (self.try_impersonate session).2.1 world
        = some (DrainExit.null_task,
            { self with raw_thread_ := self.raw_thread_.wakeup },
            { runs_ := world.runs_ ++ [(task, self.holder_)]
              results_ := world.results_ ++ [(task, run task self.holder_)] }) ∧
      ({ self with raw_thread_ := self.raw_thread_.wakeup } : ThreadPimpl).current_task_ = none ∧
      ∀ next : ImpersonateSession,
        (({ self with raw_thread_ := self.raw_thread_.wakeup } : ThreadPimpl).try_impersonate
          next).1 = true := by
  have h1 := try_impersonate_idle self session hidle
  rw [h1]
  refine ⟨rfl, htask, ?_, hidle, ?_⟩
  · have h2 := handle_tasks_drain_one_task run
      { self with current_task_ := session.task_, raw_thread_ := self.raw_thread_.wakeup }
      world task fuel htask hrun
    simp only [] at h2 ⊢
    rw [h2, ← hidle]
  · intro next
    rw [try_impersonate_idle { self with raw_thread_ := self.raw_thread_.wakeup } next hidle]

theorem C22_worker_handoff_witness :
    ((ThreadPimpl.mk 100 3 none ⟨false, 0⟩).try_impersonate ⟨none, some 7⟩).1 = true ∧
      handle_tasks_drain (fun task context => task + context) 2
          ((ThreadPimpl.mk 100 3 none ⟨false, 0⟩).try_impersonate ⟨none, some 7⟩).2.1 ⟨[], []⟩
        = some (DrainExit.null_task,
            ThreadPimpl.mk 100 3 none ⟨false, 1⟩, ⟨[(7, 100)], [(7, 107)]⟩) :=
  ⟨(C22_worker_handoff (fun task context => task + context) ⟨100, 3, none, ⟨false, 0⟩⟩
      ⟨none, some 7⟩ ⟨[], []⟩ 7 0 rfl rfl rfl).1,
    (C22_worker_handoff (fun task context => task + context) ⟨100, 3, none, ⟨false, 0⟩⟩
      ⟨none, some 7⟩ ⟨[], []⟩ 7 0 rfl rfl rfl).2.2.1⟩

/-- With a stop requested the drain loop is left at once: a pending task is not run and stays
in the slot. -/
theorem handle_tasks_drain_stop_requested (run : Nat → Nat → Nat) (self : ThreadPimpl)
    (world : TaskWorld) (fuel : Nat) (hstop : self.raw_thread_.is_stop_requested = true) :
    handle_tasks_drain run (fuel + 1) self world = some (DrainExit.stop_requested, self, world) := by
  simp [handle_tasks_drain, hstop]

/-- C22 (the claim as stated is false): an idle worker that has been asked to stop accepts a
non-null task, but its drain loop is left at once on the stop flag, with any fuel: the task is
not run, no result is set, the pending slot still holds the task, and a subsequent
`try_impersonate` on the worker returns false. -/
theorem C22_stop_requested_task_not_run :
    (ThreadPimpl.mk 100 3 none ⟨true, 0⟩).current_task_ = none ∧
      ((ThreadPimpl.mk 100 3 none ⟨true, 0⟩).try_impersonate ⟨none, some 7⟩).1 = true ∧
      (∀ fuel : Nat,
        handle_tasks_drain (fun task context => task + context) (fuel + 1)
            ((ThreadPimpl.mk 100 3 none ⟨true, 0⟩).try_impersonate ⟨none, some 7⟩).2.1 ⟨[], []⟩
          = some (DrainExit.stop_requested, ThreadPimpl.mk 100 3 (some 7) ⟨true, 1⟩, ⟨[], []⟩)) ∧
      ((ThreadPimpl.mk 100 3 (some 7) ⟨true, 1⟩).try_impersonate ⟨none, some 8⟩).1 = false := by
  refine ⟨rfl, by decide, ?_, by decide⟩
  intro fuel
  exact handle_tasks_drain_stop_requested _ _ _ fuel rfl

/-- Two submissions one after the other on an idle worker, with no drain in between: the first
one with a non-null task succeeds and the second one fails, its session left unbound. -/
theorem try_impersonate_second_is_busy (self : ThreadPimpl) (winner loser : ImpersonateSession)
    (task : Nat) (hidle : self.current_task_ = none) (htask : winner.task_ = some task) :
    (self.try_impersonate winner).1 = true ∧
      ((self.try_impersonate winner).2.1.try_impersonate loser).1 = false ∧
      ((self.try_impersonate winner).2.1.try_impersonate loser).2.2.thread_ = none ∧
      ((self.try_impersonate winner).2.1.try_impersonate loser).2.1.current_task_
        = some task := by
  rw [try_impersonate_idle self winner hidle]
  have hbusy : (ThreadPimpl.mk self.holder_ self.id_ winner.task_
      self.raw_thread_.wakeup).current_task_ ≠ none := by
    simp [htask]
  simp only []
  rw [try_impersonate_busy _ loser hbusy]
  exact ⟨trivial, rfl, rfl, htask⟩

/-! ## Several submitters -/

/-- On a worker whose pending slot is not null every submission fails: each session is left
unbound and the worker is unchanged. -/
theorem submit_all_busy (sessions : List ImpersonateSession) :
    ∀ self : ThreadPimpl, self.current_task_ ≠ none →
      self.submit_all sessions
        = (sessions.map (fun s => (false, { s with thread_ := none })), self) := by
  induction sessions with
  | nil =>
    intro self _
    rfl
  | cons session rest ih =>
    intro self hbusy
    unfold submit_all
    rw [try_impersonate_busy self session hbusy]
    simp only []
    rw [ih self hbusy]
    rfl

/-- C23 (the claim as stated is false): two submitters on the same idle worker can both get
true.  First, with the worker draining in between: the first submitter wins, the worker runs its
task and clears the slot, and the second submitter wins as well on the slot that is null again.
Second, with a session whose task is null: the swap from null to null succeeds and leaves the
slot null, so both calls return true. -/
theorem C23_two_submitters_both_true :
    (((ThreadPimpl.mk 100 3 none ⟨false, 0⟩).try_impersonate ⟨none, some 7⟩).1 = true ∧
        handle_tasks_drain (fun task context => task + context) 2
            ((ThreadPimpl.mk 100 3 none ⟨false, 0⟩).try_impersonate ⟨none, some 7⟩).2.1 ⟨[], []⟩
          = some (DrainExit.null_task, ThreadPimpl.mk 100 3 none ⟨false, 1⟩,
              ⟨[(7, 100)], [(7, 107)]⟩) ∧
        ((ThreadPimpl.mk 100 3 none ⟨false, 1⟩).try_impersonate ⟨none, some 8⟩).1 = true) ∧
      ((ThreadPimpl.mk 100 3 none ⟨false, 0⟩).submit_all [⟨none, none⟩, ⟨none, some 8⟩]).1.map
          Prod.fst = [true, true] := by
  decide

/-- C23 (amended): for all sessions submitted to the same idle worker, in whatever order their
compare-and-swaps take effect, as long as the worker does not clear its pending slot in between
and the first of them carries a non-null task, exactly one `try_impersonate` call returns true,
the first one, whose session is bound to the worker; every other submitter meets the worker with
a non-null pending slot (the task of the winner) and gets false, its session left unbound, and
the slot still holds the task of the winner at the end. -/
theorem C23_exactly_one_submitter_wins (self : ThreadPimpl) (winner : ImpersonateSession)
    (others : List ImpersonateSession) (task : Nat) (hidle : self.current_task_ = none)
    (htask : winner.task_ = some task) :
    self.submit_all (winner :: others)
        = ((true, { winner with thread_ := some self.holder_ })
            :: others.map (fun s => (false, { s with thread_ := none })),
          { self with current_task_ := some task, raw_thread_ := self.raw_thread_.wakeup }) ∧
      ((self.submit_all (winner :: others)).1.map Prod.fst).count true = 1 ∧
      (self.submit_all (winner :: others)).1.map Prod.fst
        = true :: List.replicate others.length false ∧
      (self.try_impersonate winner).2.1.current_task_ = some task ∧
      (self.try_impersonate winner).2.1.submit_all others
        = (others.map (fun s => (false, { s with thread_ := none })),
          (self.try_impersonate winner).2.1) ∧
      (self.submit_all (winner :: others)).2.current_task_ = some task := by
  have h1 := try_impersonate_idle self winner hidle
  have hslot : (self.try_impersonate winner).2.1.current_task_ = some task := by
    rw [h1]
    exact htask
  have hbusy : (self.try_impersonate winner).2.1.current_task_ ≠ none := by
    rw [hslot]
    simp
  have h2 := submit_all_busy others (self.try_impersonate winner).2.1 hbusy
  have h3 : self.submit_all (winner :: others)
      = ((true, { winner with thread_ := some self.holder_ })
          :: others.map (fun s => (false, { s with thread_ := none })),
        { self with current_task_ := some task, raw_thread_ := self.raw_thread_.wakeup }) := by
    unfold submit_all
    rw [h2, h1, htask]
  have hflags : ∀ l : List ImpersonateSession,
      (l.map (fun s => ((false, { s with thread_ := none }) : Bool × ImpersonateSession))).map
        Prod.fst = List.replicate l.length false := by
    intro l
    induction l with
    | nil => rfl
    | cons s rest ih => simp [List.replicate_succ, ih]
  refine ⟨h3, ?_, ?_, hslot, h2, ?_⟩
  · rw [h3]
    simp only [List.map_cons]
    rw [hflags others, List.count_cons_self, List.count_replicate]
    simp
  · rw [h3]
    simp only [List.map_cons]
    rw [hflags others]
  · rw [h3]

theorem C23_exactly_one_submitter_wins_witness :
    (((ThreadPimpl.mk 100 3 none ⟨false, 0⟩).submit_all
        [⟨none, some 7⟩, ⟨none, some 8⟩, ⟨none, some 9⟩]).1.map Prod.fst).count true = 1 :=
  (C23_exactly_one_submitter_wins ⟨100, 3, none, ⟨false, 0⟩⟩ ⟨none, some 7⟩
    [⟨none, some 8⟩, ⟨none, some 9⟩] 7 rfl rfl).2.1

end ThreadPimpl
end thread
end foedus
